import Mathlib

/-!
A shallow embedding of the kafka-api versioned binary codec.

The message-level programs (the `encode` functions of `FetchResponse`,
`FetchableTopicResponse`, `PartitionData`, `EpochEndOffset`,
`LeaderIdAndEpoch`, `SnapshotId`, `AbortedTransaction` and the `decode`/`read`
functions of `RequestHeader`, `ApiVersionsRequest`, `HeartbeatRequest`) are
translated from the Rust sources under `src/kafka-api/src/schemata/`.

The primitive codec layer (`Int16`, `Int32`, `Int64`, `UnsignedVarint`,
`NullableString`, `NullableBytes`, `NullableArray`, `Uuid`,
`RawTaggedFieldList`) lives in the repository's `codec` module, which is not
part of the provided sources; those definitions are modelled from the spec
(sections 4.1, 4.2 and 6).  Likewise the missing direction of each message
(encoders for the request types, decoders for the response types) is modelled
from the spec (sections 4.2, 4.3 and 8).

Byte buffers are `List Nat` with every entry < 256.  Rust `String` values are
represented by their UTF-8 byte lists (`List Nat`); UTF-8 validation on decode
is not modelled, which is harmless here because no claim concerns it and
encoded strings always originate from valid strings.  `uuid::Uuid` is the
128-bit value as a `Nat`.  Machine integers (`i16`/`i32`/`i64`) are `Int`
with explicit two's-complement reduction where the wire is written.
-/

/-- Modelled from the spec: the single error channel of the codec (§7),
mirroring `Truncated`, `Malformed`, `UnexpectedNull` (carrying the field
name), `Unsupported` (carrying the version and the struct name, as built by
`err_encode_message_unsupported` / `err_decode_message_null`), `TagOverflow`. -/
inductive CodecError where
  | truncated : CodecError
  | malformed : CodecError
  | unexpectedNull (field : String) : CodecError
  | unsupported (version : Int) (message : String) : CodecError
  | tagOverflow : CodecError
deriving DecidableEq

/-- Modelled from the spec: big-endian byte string of a `w`-byte unsigned
value (§6 "Big-endian fixed integers"); the value is reduced modulo `256^w`. -/
def natBytesBE : Nat → Nat → List Nat
  | 0, _ => []
  | w + 1, n => natBytesBE w (n / 256) ++ [n % 256]

/-- Modelled from the spec: reassemble a big-endian byte string into a Nat. -/
def natFromBE (bs : List Nat) : Nat :=
  bs.foldl (fun acc b => acc * 256 + b) 0

/-- Modelled from the spec: two's-complement representation of a signed
integer in `w` bits (§4.1 "two's complement"). -/
def toUnsigned (w : Nat) (i : Int) : Nat :=
  (i % (Int.ofNat (Nat.pow 2 w))).toNat

/-- Modelled from the spec: interpret a `w`-bit unsigned value as a signed
two's-complement integer. -/
def toSigned (w : Nat) (n : Nat) : Int :=
  if n < Nat.pow 2 (w - 1) then (n : Int) else (n : Int) - Int.ofNat (Nat.pow 2 w)

theorem natPow_eq_pow (a b : Nat) : Nat.pow a b = a ^ b := rfl

theorem intOfNat_eq_cast (n : Nat) : Int.ofNat n = (n : Int) := rfl

/-- Modelled from the spec: `Int16.encode`, fixed width big-endian (§4.1). -/
def encInt16 (i : Int) : List Nat := natBytesBE 2 (toUnsigned 16 i)

/-- Modelled from the spec: `Int32.encode`. -/
def encInt32 (i : Int) : List Nat := natBytesBE 4 (toUnsigned 32 i)

/-- Modelled from the spec: `Int64.encode`. -/
def encInt64 (i : Int) : List Nat := natBytesBE 8 (toUnsigned 64 i)

/-- Modelled from the spec: read exactly `n` raw bytes off the front of the
buffer, `Truncated` when the buffer is shorter (§7). -/
def readN (n : Nat) (buf : List Nat) : Except CodecError (List Nat × List Nat) :=
  if buf.length < n then .error .truncated else .ok (buf.take n, buf.drop n)

/-- Modelled from the spec: `Int16.decode`: two bytes big-endian, signed. -/
def decInt16 (buf : List Nat) : Except CodecError (Int × List Nat) := do
  let (bs, rest) ← readN 2 buf
  pure (toSigned 16 (natFromBE bs), rest)

/-- Modelled from the spec: `Int32.decode`. -/
def decInt32 (buf : List Nat) : Except CodecError (Int × List Nat) := do
  let (bs, rest) ← readN 4 buf
  pure (toSigned 32 (natFromBE bs), rest)

/-- Modelled from the spec: `Int64.decode`. -/
def decInt64 (buf : List Nat) : Except CodecError (Int × List Nat) := do
  let (bs, rest) ← readN 8 buf
  pure (toSigned 64 (natFromBE bs), rest)

/-- Modelled from the spec: `UnsignedVarint.encode`, base-128 little-endian
groups with MSB continuation (§6).  The fuel of 6 is enough for any 32-bit
value (5 groups); the encoder in the repository takes a `u32`. -/
def encUVarintAux : Nat → Nat → List Nat
  | 0, _ => []
  | fuel + 1, n =>
      if n < 128 then [n] else (n % 128 + 128) :: encUVarintAux fuel (n / 128)

/-- Modelled from the spec: `UnsignedVarint.encode` for a 32-bit value. -/
def encUVarint (n : Nat) : List Nat := encUVarintAux 6 n

/-- Modelled from the spec: `UnsignedVarint.decode` worker; `Malformed` once
five bytes are consumed without a terminating group (§4.1). -/
def decUVarintAux : Nat → Nat → Nat → List Nat → Except CodecError (Nat × List Nat)
  | 0, _, _, _ => .error .malformed
  | _ + 1, _, _, [] => .error .truncated
  | fuel + 1, acc, mult, b :: rest =>
      if b < 128 then .ok (acc + b * mult, rest)
      else decUVarintAux fuel (acc + (b - 128) * mult) (mult * 128) rest

/-- Modelled from the spec: `UnsignedVarint.decode` (at most 5 bytes). -/
def decUVarint (buf : List Nat) : Except CodecError (Nat × List Nat) :=
  decUVarintAux 5 0 1 buf

/-- Modelled from the spec: `NullableString(compact).encode` over the UTF-8
bytes of the string; classic form is an `i16` length (−1 for null), compact
form an unsigned varint `n+1` (0 for null) (§4.1, §6). -/
def encNullableString (compact : Bool) (s : Option (List Nat)) : List Nat :=
  match s with
  | none => if compact then encUVarint 0 else encInt16 (-1)
  | some bs =>
      (if compact then encUVarint (bs.length + 1) else encInt16 bs.length) ++ bs

/-- Modelled from the spec: `NullableString(compact).decode`.  (UTF-8
validation is not modelled; string values are their byte lists.) -/
def decNullableString (compact : Bool) (buf : List Nat) :
    Except CodecError (Option (List Nat) × List Nat) :=
  if compact then do
    let (n, b1) ← decUVarint buf
    if n = 0 then pure (none, b1)
    else do
      let (bs, b2) ← readN (n - 1) b1
      pure (some bs, b2)
  else do
    let (len, b1) ← decInt16 buf
    if len = -1 then pure (none, b1)
    else if len < 0 then .error .malformed
    else do
      let (bs, b2) ← readN len.toNat b1
      pure (some bs, b2)

/-- Modelled from the spec: `NullableBytes(compact).encode`; the classic
length is an `i32` (§4.1). -/
def encNullableBytes (compact : Bool) (s : Option (List Nat)) : List Nat :=
  match s with
  | none => if compact then encUVarint 0 else encInt32 (-1)
  | some bs =>
      (if compact then encUVarint (bs.length + 1) else encInt32 bs.length) ++ bs

/-- Modelled from the spec: `NullableBytes(compact).decode`. -/
def decNullableBytes (compact : Bool) (buf : List Nat) :
    Except CodecError (Option (List Nat) × List Nat) :=
  if compact then do
    let (n, b1) ← decUVarint buf
    if n = 0 then pure (none, b1)
    else do
      let (bs, b2) ← readN (n - 1) b1
      pure (some bs, b2)
  else do
    let (len, b1) ← decInt32 buf
    if len = -1 then pure (none, b1)
    else if len < 0 then .error .malformed
    else do
      let (bs, b2) ← readN len.toNat b1
      pure (some bs, b2)

/-- Modelled from the spec: `Uuid.encode`, 16 raw bytes in network order of
the 128-bit value (§4.1). -/
def encUuid (u : Nat) : List Nat := natBytesBE 16 u

/-- Modelled from the spec: `Uuid.decode`. -/
def decUuid (buf : List Nat) : Except CodecError (Nat × List Nat) := do
  let (bs, rest) ← readN 16 buf
  pure (natFromBE bs, rest)

/-- Modelled from the spec: serialize each array element in order with the
element encoder, propagating the first failure. -/
def encList (enc : α → Except CodecError (List Nat)) :
    List α → Except CodecError (List Nat)
  | [] => .ok []
  | x :: xs => do
      let b ← enc x
      let bs ← encList enc xs
      pure (b ++ bs)

/-- Modelled from the spec: `NullableArray(elem, compact).encode`; classic
form is an `i32` count (−1 for null), compact an unsigned varint `n+1`
(0 for null) (§4.1). -/
def encNullableArray (enc : α → Except CodecError (List Nat)) (compact : Bool)
    (xs : Option (List α)) : Except CodecError (List Nat) :=
  match xs with
  | none => .ok (if compact then encUVarint 0 else encInt32 (-1))
  | some l => do
      let bs ← encList enc l
      pure ((if compact then encUVarint (l.length + 1) else encInt32 l.length) ++ bs)

/-- Modelled from the spec: decode `n` consecutive array elements. -/
def decListN (dec : List Nat → Except CodecError (α × List Nat)) :
    Nat → List Nat → Except CodecError (List α × List Nat)
  | 0, buf => .ok ([], buf)
  | n + 1, buf => do
      let (x, b1) ← dec buf
      let (xs, b2) ← decListN dec n b1
      pure (x :: xs, b2)

/-- Modelled from the spec: `NullableArray(elem, compact).decode`. -/
def decNullableArray (dec : List Nat → Except CodecError (α × List Nat))
    (compact : Bool) (buf : List Nat) :
    Except CodecError (Option (List α) × List Nat) :=
  if compact then do
    let (n, b1) ← decUVarint buf
    if n = 0 then pure (none, b1)
    else do
      let (xs, b2) ← decListN dec (n - 1) b1
      pure (some xs, b2)
  else do
    let (len, b1) ← decInt32 buf
    if len = -1 then pure (none, b1)
    else if len < 0 then .error .malformed
    else do
      let (xs, b2) ← decListN dec len.toNat b1
      pure (some xs, b2)

/-- Modelled from the spec: a raw tagged field, an unsigned tag with an
opaque byte blob (§3). -/
structure RawTaggedField where
  tag : Nat
  data : List Nat
deriving DecidableEq

/-- Modelled from the spec: body bytes of one trailer entry:
`uvarint tag`, `uvarint size`, then the raw body bytes (§6). -/
def encTaggedEntries : List RawTaggedField → List Nat
  | [] => []
  | f :: fs => encUVarint f.tag ++ encUVarint f.data.length ++ f.data ++ encTaggedEntries fs

/-- Modelled from the spec: `RawTaggedFieldList.encode`: `uvarint count` then
the entries of the given list in order (§4.1, §6; the §4.2 sort/reject steps
belong to the struct encoders, which in this catalog do not perform them). -/
def encRawTaggedFieldList (fs : List RawTaggedField) : List Nat :=
  encUVarint fs.length ++ encTaggedEntries fs

/-- Modelled from the spec: decode `n` trailer entries whose tags must be at
least `minTag` and strictly ascending; out-of-order or duplicate tags are
`Malformed` (§4.1, §7, §8 "Tag ordering"). -/
def decTaggedEntries :
    Nat → Nat → List Nat → Except CodecError (List RawTaggedField × List Nat)
  | 0, _, buf => .ok ([], buf)
  | n + 1, minTag, buf => do
      let (tag, b1) ← decUVarint buf
      if tag < minTag then .error .malformed
      else do
        let (sz, b2) ← decUVarint b1
        let (data, b3) ← readN sz b2
        let (fs, b4) ← decTaggedEntries n (tag + 1) b3
        pure (⟨tag, data⟩ :: fs, b4)

/-- Modelled from the spec: `RawTaggedFieldList.decode`. -/
def decRawTaggedFieldList (buf : List Nat) :
    Except CodecError (List RawTaggedField × List Nat) := do
  let (n, b1) ← decUVarint buf
  decTaggedEntries n 0 b1

/-- Tags of the list are strictly ascending starting at or above `minTag`
(the exact check performed by the trailer decoder). -/
def tagsAscendingFrom : Nat → List RawTaggedField → Bool
  | _, [] => true
  | minTag, f :: fs => decide (minTag ≤ f.tag) && tagsAscendingFrom (f.tag + 1) fs

/-- Tags of the list are strictly ascending. -/
def tagsAscending (fs : List RawTaggedField) : Bool := tagsAscendingFrom 0 fs

/-! ## Message structs and their versioned programs (fetch_response.rs) -/

/-- `EpochEndOffset` from `schemata/fetch_response.rs`. -/
structure EpochEndOffset where
  epoch : Int
  end_offset : Int
  unknown_tagged_fields : List RawTaggedField
deriving DecidableEq

/-- `impl Default for EpochEndOffset`: epoch and end_offset are −1. -/
def EpochEndOffset.default : EpochEndOffset :=
  { epoch := -1, end_offset := -1, unknown_tagged_fields := [] }

/-- `EpochEndOffset::encode` from `schemata/fetch_response.rs`. -/
def EpochEndOffset.encode (x : EpochEndOffset) (version : Int) :
    Except CodecError (List Nat) :=
  if version < 12 then .error (.unsupported version "EpochEndOffset")
  else .ok (encInt32 x.epoch ++ encInt64 x.end_offset ++
    encRawTaggedFieldList x.unknown_tagged_fields)

/-- `LeaderIdAndEpoch` from `schemata/fetch_response.rs`. -/
structure LeaderIdAndEpoch where
  leader_id : Int
  leader_epoch : Int
  unknown_tagged_fields : List RawTaggedField
deriving DecidableEq

/-- `impl Default for LeaderIdAndEpoch`: leader_id and leader_epoch are −1. -/
def LeaderIdAndEpoch.default : LeaderIdAndEpoch :=
  { leader_id := -1, leader_epoch := -1, unknown_tagged_fields := [] }

/-- `LeaderIdAndEpoch::encode` from `schemata/fetch_response.rs`. -/
def LeaderIdAndEpoch.encode (x : LeaderIdAndEpoch) (version : Int) :
    Except CodecError (List Nat) :=
  if version < 12 then .error (.unsupported version "LeaderIdAndEpoch")
  else .ok (encInt32 x.leader_id ++ encInt32 x.leader_epoch ++
    encRawTaggedFieldList x.unknown_tagged_fields)

/-- `SnapshotId` from `schemata/fetch_response.rs`. -/
structure SnapshotId where
  end_offset : Int
  epoch : Int
  unknown_tagged_fields : List RawTaggedField
deriving DecidableEq

/-- `impl Default for SnapshotId`: end_offset and epoch are −1. -/
def SnapshotId.default : SnapshotId :=
  { end_offset := -1, epoch := -1, unknown_tagged_fields := [] }

/-- `SnapshotId::encode` from `schemata/fetch_response.rs`. -/
def SnapshotId.encode (x : SnapshotId) (version : Int) :
    Except CodecError (List Nat) :=
  if version < 12 then .error (.unsupported version "SnapshotId")
  else .ok (encInt64 x.end_offset ++ encInt32 x.epoch ++
    encRawTaggedFieldList x.unknown_tagged_fields)

/-- `AbortedTransaction` from `schemata/fetch_response.rs`. -/
structure AbortedTransaction where
  producer_id : Int
  first_offset : Int
  unknown_tagged_fields : List RawTaggedField
deriving DecidableEq

/-- `#[derive(Default)]` for `AbortedTransaction`. -/
def AbortedTransaction.default : AbortedTransaction :=
  { producer_id := 0, first_offset := 0, unknown_tagged_fields := [] }

/-- `AbortedTransaction::encode` from `schemata/fetch_response.rs`. -/
def AbortedTransaction.encode (x : AbortedTransaction) (version : Int) :
    Except CodecError (List Nat) :=
  if version < 4 then .error (.unsupported version "AbortedTransaction")
  else .ok (encInt64 x.producer_id ++ encInt64 x.first_offset ++
    (if version ≥ 12 then encRawTaggedFieldList x.unknown_tagged_fields else []))

/-- `PartitionData` from `schemata/fetch_response.rs`. -/
structure PartitionData where
  partition_index : Int
  error_code : Int
  high_watermark : Int
  last_stable_offset : Int
  log_start_offset : Int
  diverging_epoch : Option EpochEndOffset
  current_leader : Option LeaderIdAndEpoch
  snapshot_id : Option SnapshotId
  aborted_transactions : Option (List AbortedTransaction)
  preferred_read_replica : Int
  records : List Nat
  unknown_tagged_fields : List RawTaggedField
deriving DecidableEq

/-- `#[derive(Default)]` for `PartitionData`. -/
def PartitionData.default : PartitionData :=
  { partition_index := 0, error_code := 0, high_watermark := 0,
    last_stable_offset := 0, log_start_offset := 0,
    diverging_epoch := none, current_leader := none, snapshot_id := none,
    aborted_transactions := none, preferred_read_replica := 0,
    records := [], unknown_tagged_fields := [] }

/-- `PartitionData::encode` from `schemata/fetch_response.rs`: the inline
fields under their version guards; from v12 the known optional sub-records
are pushed under tags 0/1/2 in that order, the stored unknown tagged fields
are appended, and the combined list is handed to `RawTaggedFieldList.encode`. -/
def PartitionData.encode (x : PartitionData) (version : Int) :
    Except CodecError (List Nat) := do
  let b1 := encInt32 x.partition_index ++ encInt16 x.error_code ++
    encInt64 x.high_watermark
  let b2 := if version ≥ 4 then encInt64 x.last_stable_offset else []
  let b3 := if version ≥ 5 then encInt64 x.log_start_offset else []
  let b4 ← if version ≥ 4 then
      encNullableArray (fun a => AbortedTransaction.encode a version)
        (decide (version ≥ 12)) x.aborted_transactions
    else pure []
  let b5 := if version ≥ 11 then encInt32 x.preferred_read_replica else []
  let b6 := encNullableBytes (decide (version ≥ 12)) (some x.records)
  if version ≥ 12 then do
    let t0 ← match x.diverging_epoch with
      | some e => do
          let d ← EpochEndOffset.encode e version
          pure [RawTaggedField.mk 0 d]
      | none => pure []
    let t1 ← match x.current_leader with
      | some c => do
          let d ← LeaderIdAndEpoch.encode c version
          pure [RawTaggedField.mk 1 d]
      | none => pure []
    let t2 ← match x.snapshot_id with
      | some s => do
          let d ← SnapshotId.encode s version
          pure [RawTaggedField.mk 2 d]
      | none => pure []
    pure (b1 ++ b2 ++ b3 ++ b4 ++ b5 ++ b6 ++
      encRawTaggedFieldList (t0 ++ t1 ++ t2 ++ x.unknown_tagged_fields))
  else
    pure (b1 ++ b2 ++ b3 ++ b4 ++ b5 ++ b6)

/-- `FetchableTopicResponse` from `schemata/fetch_response.rs`.  The Rust
`topic: String` is its UTF-8 byte list; `topic_id: uuid::Uuid` is the 128-bit
value. -/
structure FetchableTopicResponse where
  topic : List Nat
  topic_id : Nat
  partitions : List PartitionData
  unknown_tagged_fields : List RawTaggedField
deriving DecidableEq

/-- `#[derive(Default)]` for `FetchableTopicResponse`. -/
def FetchableTopicResponse.default : FetchableTopicResponse :=
  { topic := [], topic_id := 0, partitions := [], unknown_tagged_fields := [] }

/-- `FetchableTopicResponse::encode` from `schemata/fetch_response.rs`. -/
def FetchableTopicResponse.encode (x : FetchableTopicResponse) (version : Int) :
    Except CodecError (List Nat) := do
  let b1 := if version ≤ 12 then
      encNullableString (decide (version ≥ 12)) (some x.topic)
    else []
  let b2 := if version ≥ 13 then encUuid x.topic_id else []
  let b3 ← encNullableArray (fun p => PartitionData.encode p version)
    (decide (version ≥ 12)) (some x.partitions)
  let b4 := if version ≥ 12 then
      encRawTaggedFieldList x.unknown_tagged_fields
    else []
  pure (b1 ++ b2 ++ b3 ++ b4)

/-- `FetchResponse` from `schemata/fetch_response.rs`. -/
structure FetchResponse where
  throttle_time_ms : Int
  error_code : Int
  session_id : Int
  responses : List FetchableTopicResponse
  unknown_tagged_fields : List RawTaggedField
deriving DecidableEq

/-- `#[derive(Default)]` for `FetchResponse`. -/
def FetchResponse.default : FetchResponse :=
  { throttle_time_ms := 0, error_code := 0, session_id := 0,
    responses := [], unknown_tagged_fields := [] }

/-- `FetchResponse::encode` from `schemata/fetch_response.rs`. -/
def FetchResponse.encode (x : FetchResponse) (version : Int) :
    Except CodecError (List Nat) := do
  let b1 := if version ≥ 1 then encInt32 x.throttle_time_ms else []
  let b2 := if version ≥ 7 then encInt16 x.error_code ++ encInt32 x.session_id
    else []
  let b3 ← encNullableArray (fun t => FetchableTopicResponse.encode t version)
    (decide (version ≥ 12)) (some x.responses)
  let b4 := if version ≥ 12 then
      encRawTaggedFieldList x.unknown_tagged_fields
    else []
  pure (b1 ++ b2 ++ b3 ++ b4)

/-- The `&mut impl BufMut` calling convention of `Encodable::encode`: on
success the produced bytes are appended to the caller's buffer; on failure
the buffer is returned untouched.  In this catalog every failing encode fails
on its leading version guard before writing anything, so this wrapper
captures the source's buffer behaviour exactly. -/
def encodeOnto (r : Except CodecError (List Nat)) (buf : List Nat) :
    Except CodecError Unit × List Nat :=
  match r with
  | .ok bs => (.ok (), buf ++ bs)
  | .error e => (.error e, buf)

/-! ## Request-side structs (request_header.rs, api_versions_request.rs,
heartbeat_request.rs) -/

/-- `RequestHeader` from `schemata/request_header.rs`; `client_id: String`
is its UTF-8 byte list. -/
structure RequestHeader where
  request_api_key : Int
  request_api_version : Int
  correlation_id : Int
  client_id : List Nat
  unknown_tagged_fields : List RawTaggedField
deriving DecidableEq

/-- `#[derive(Default)]` for `RequestHeader`. -/
def RequestHeader.default : RequestHeader :=
  { request_api_key := 0, request_api_version := 0, correlation_id := 0,
    client_id := [], unknown_tagged_fields := [] }

/-- `RequestHeader::decode` from `schemata/request_header.rs`: api key, api
version and correlation id unconditionally; from header v1 the client id as a
classic (non-compact) nullable string, null collapsing to the default empty
string; from header v2 the tagged-field trailer. -/
def RequestHeader.decode (buf : List Nat) (version : Int) :
    Except CodecError (RequestHeader × List Nat) := do
  let (k, b1) ← decInt16 buf
  let (a, b2) ← decInt16 b1
  let (c, b3) ← decInt32 b2
  if version ≥ 1 then do
    let (cid, b4) ← decNullableString false b3
    if version ≥ 2 then do
      let (fs, b5) ← decRawTaggedFieldList b4
      pure ({ request_api_key := k, request_api_version := a,
              correlation_id := c, client_id := cid.getD [],
              unknown_tagged_fields := fs }, b5)
    else
      pure ({ request_api_key := k, request_api_version := a,
              correlation_id := c, client_id := cid.getD [],
              unknown_tagged_fields := [] }, b4)
  else
    pure ({ request_api_key := k, request_api_version := a,
            correlation_id := c, client_id := [],
            unknown_tagged_fields := [] }, b3)

/-- Modelled from the spec: `RequestHeader` encoding, the mirror of its
decoder (§4.3 and the §8 scenario 2 layout): fixed fields, then from header
v1 the client id as a classic nullable string, then from v2 the trailer. -/
def RequestHeader.encode (x : RequestHeader) (version : Int) : List Nat :=
  encInt16 x.request_api_key ++ encInt16 x.request_api_version ++
  encInt32 x.correlation_id ++
  (if version ≥ 1 then encNullableString false (some x.client_id) else []) ++
  (if version ≥ 2 then encRawTaggedFieldList x.unknown_tagged_fields else [])

/-- `ApiVersionsRequest` from `schemata/api_versions_request.rs`; the two
software strings are their UTF-8 byte lists. -/
structure ApiVersionsRequest where
  client_software_name : List Nat
  client_software_version : List Nat
  unknown_tagged_fields : List RawTaggedField
deriving DecidableEq

/-- `#[derive(Default)]` for `ApiVersionsRequest`. -/
def ApiVersionsRequest.default : ApiVersionsRequest :=
  { client_software_name := [], client_software_version := [],
    unknown_tagged_fields := [] }

/-- `ApiVersionsRequest::decode` from `schemata/api_versions_request.rs`:
all body fields exist only from v3; both software strings are compact
nullable strings whose null sentinel is rejected with `UnexpectedNull`
naming the field; the trailer follows. -/
def ApiVersionsRequest.decode (buf : List Nat) (version : Int) :
    Except CodecError (ApiVersionsRequest × List Nat) :=
  if version ≥ 3 then do
    let (n, b1) ← decNullableString true buf
    match n with
    | none => .error (.unexpectedNull "client_software_name")
    | some nm => do
      let (v, b2) ← decNullableString true b1
      match v with
      | none => .error (.unexpectedNull "client_software_version")
      | some vs => do
        let (fs, b3) ← decRawTaggedFieldList b2
        pure ({ client_software_name := nm, client_software_version := vs,
                unknown_tagged_fields := fs }, b3)
  else .ok (ApiVersionsRequest.default, buf)

/-- Modelled from the spec: `ApiVersionsRequest` encoding, mirror of its
decoder (§4.3 "All body fields introduced at v3; prior versions have an
empty body", §8 scenario 1). -/
def ApiVersionsRequest.encode (x : ApiVersionsRequest) (version : Int) : List Nat :=
  if version ≥ 3 then
    encNullableString true (some x.client_software_name) ++
    encNullableString true (some x.client_software_version) ++
    encRawTaggedFieldList x.unknown_tagged_fields
  else []

/-- `HeartbeatRequest` from `schemata/heartbeat_request.rs`; the id strings
are their UTF-8 byte lists. -/
structure HeartbeatRequest where
  group_id : List Nat
  generation_id : Int
  member_id : List Nat
  group_instance_id : Option (List Nat)
  unknown_tagged_fields : List RawTaggedField
deriving DecidableEq

/-- `#[derive(Default)]` for `HeartbeatRequest`. -/
def HeartbeatRequest.default : HeartbeatRequest :=
  { group_id := [], generation_id := 0, member_id := [],
    group_instance_id := none, unknown_tagged_fields := [] }

/-- `HeartbeatRequest::read` from `schemata/heartbeat_request.rs`: group and
member ids are nullable strings (compact from v4) whose null sentinel is
rejected with `UnexpectedNull` naming the field; `group_instance_id` exists
from v3 and stays nullable; the trailer exists from v4. -/
def HeartbeatRequest.read (buf : List Nat) (version : Int) :
    Except CodecError (HeartbeatRequest × List Nat) := do
  let (g, b1) ← decNullableString (decide (version ≥ 4)) buf
  match g with
  | none => .error (.unexpectedNull "group_id")
  | some gid => do
    let (gen, b2) ← decInt32 b1
    let (m, b3) ← decNullableString (decide (version ≥ 4)) b2
    match m with
    | none => .error (.unexpectedNull "member_id")
    | some mid => do
      let (inst, b4) ← if version ≥ 3 then
          decNullableString (decide (version ≥ 4)) b3
        else pure (none, b3)
      if version ≥ 4 then do
        let (fs, b5) ← decRawTaggedFieldList b4
        pure ({ group_id := gid, generation_id := gen, member_id := mid,
                group_instance_id := inst, unknown_tagged_fields := fs }, b5)
      else
        pure ({ group_id := gid, generation_id := gen, member_id := mid,
                group_instance_id := inst, unknown_tagged_fields := [] }, b4)

/-- Modelled from the spec: `HeartbeatRequest` encoding, mirror of its
reader (§4.3 "Group/member IDs are nullable-string with compactness keyed to
v ≥ 4; group_instance_id from v3; trailer from v4", §8 scenario 3). -/
def HeartbeatRequest.write (x : HeartbeatRequest) (version : Int) : List Nat :=
  encNullableString (decide (version ≥ 4)) (some x.group_id) ++
  encInt32 x.generation_id ++
  encNullableString (decide (version ≥ 4)) (some x.member_id) ++
  (if version ≥ 3 then
    encNullableString (decide (version ≥ 4)) x.group_instance_id
  else []) ++
  (if version ≥ 4 then encRawTaggedFieldList x.unknown_tagged_fields else [])

/-! ## Spec-modelled decoders for the fetch response family -/

/-- Modelled from the spec: re-parse the body of a claimed tagged entry; the
body must be consumed exactly (§4.2 "re-parsing their bodies into typed
fields"). -/
def parseFull (dec : List Nat → Except CodecError (α × List Nat))
    (data : List Nat) : Except CodecError α := do
  let (x, rest) ← dec data
  if rest = [] then pure x else .error .malformed

/-- Modelled from the spec: `EpochEndOffset` decoding, mirror of its encoder
(§4.3); undefined below v12. -/
def EpochEndOffset.decode (buf : List Nat) (version : Int) :
    Except CodecError (EpochEndOffset × List Nat) :=
  if version < 12 then .error (.unsupported version "EpochEndOffset")
  else do
    let (e, b1) ← decInt32 buf
    let (o, b2) ← decInt64 b1
    let (fs, b3) ← decRawTaggedFieldList b2
    pure ({ epoch := e, end_offset := o, unknown_tagged_fields := fs }, b3)

/-- Modelled from the spec: `LeaderIdAndEpoch` decoding, mirror of its
encoder; undefined below v12. -/
def LeaderIdAndEpoch.decode (buf : List Nat) (version : Int) :
    Except CodecError (LeaderIdAndEpoch × List Nat) :=
  if version < 12 then .error (.unsupported version "LeaderIdAndEpoch")
  else do
    let (l, b1) ← decInt32 buf
    let (e, b2) ← decInt32 b1
    let (fs, b3) ← decRawTaggedFieldList b2
    pure ({ leader_id := l, leader_epoch := e, unknown_tagged_fields := fs }, b3)

/-- Modelled from the spec: `SnapshotId` decoding, mirror of its encoder;
undefined below v12. -/
def SnapshotId.decode (buf : List Nat) (version : Int) :
    Except CodecError (SnapshotId × List Nat) :=
  if version < 12 then .error (.unsupported version "SnapshotId")
  else do
    let (o, b1) ← decInt64 buf
    let (e, b2) ← decInt32 b1
    let (fs, b3) ← decRawTaggedFieldList b2
    pure ({ end_offset := o, epoch := e, unknown_tagged_fields := fs }, b3)

/-- Modelled from the spec: `AbortedTransaction` decoding, mirror of its
encoder; undefined below v4, trailer from v12. -/
def AbortedTransaction.decode (buf : List Nat) (version : Int) :
    Except CodecError (AbortedTransaction × List Nat) :=
  if version < 4 then .error (.unsupported version "AbortedTransaction")
  else do
    let (p, b1) ← decInt64 buf
    let (f, b2) ← decInt64 b1
    if version ≥ 12 then do
      let (fs, b3) ← decRawTaggedFieldList b2
      pure ({ producer_id := p, first_offset := f,
              unknown_tagged_fields := fs }, b3)
    else
      pure ({ producer_id := p, first_offset := f,
              unknown_tagged_fields := [] }, b2)

/-- Modelled from the spec: the claiming pass of `PartitionData` decoding
(§4.2 "the struct's decoder then claims entries whose tags it recognizes,
removing them and re-parsing their bodies into typed fields; unclaimed
entries remain"): tag 0 is `diverging_epoch`, tag 1 `current_leader`, tag 2
`snapshot_id`. -/
def PartitionData.claimTags (version : Int) :
    List RawTaggedField →
    Except CodecError (Option EpochEndOffset × Option LeaderIdAndEpoch ×
      Option SnapshotId × List RawTaggedField)
  | [] => .ok (none, none, none, [])
  | f :: fs => do
      let (d, c, s, u) ← PartitionData.claimTags version fs
      if f.tag = 0 then do
        let e ← parseFull (fun b => EpochEndOffset.decode b version) f.data
        pure (some e, c, s, u)
      else if f.tag = 1 then do
        let l ← parseFull (fun b => LeaderIdAndEpoch.decode b version) f.data
        pure (d, some l, s, u)
      else if f.tag = 2 then do
        let sn ← parseFull (fun b => SnapshotId.decode b version) f.data
        pure (d, c, some sn, u)
      else
        pure (d, c, s, f :: u)

/-- Modelled from the spec: `PartitionData` decoding, mirror of its encoder
(§4.3): inline fields under their version guards, absent fields taking their
defaults, then from v12 the trailer with tags 0/1/2 claimed into the typed
optional sub-records. -/
def PartitionData.decode (buf : List Nat) (version : Int) :
    Except CodecError (PartitionData × List Nat) := do
  let (pi, b1) ← decInt32 buf
  let (ec, b2) ← decInt16 b1
  let (hw, b3) ← decInt64 b2
  let (lso, b4) ← if version ≥ 4 then decInt64 b3 else pure (0, b3)
  let (lgs, b5) ← if version ≥ 5 then decInt64 b4 else pure (0, b4)
  let (ab, b6) ← if version ≥ 4 then
      decNullableArray (fun b => AbortedTransaction.decode b version)
        (decide (version ≥ 12)) b5
    else pure (none, b5)
  let (prr, b7) ← if version ≥ 11 then decInt32 b6 else pure (0, b6)
  let (rec, b8) ← decNullableBytes (decide (version ≥ 12)) b7
  if version ≥ 12 then do
    let (raw, b9) ← decRawTaggedFieldList b8
    let (d, c, s, u) ← PartitionData.claimTags version raw
    pure ({ partition_index := pi, error_code := ec, high_watermark := hw,
            last_stable_offset := lso, log_start_offset := lgs,
            diverging_epoch := d, current_leader := c, snapshot_id := s,
            aborted_transactions := ab, preferred_read_replica := prr,
            records := rec.getD [], unknown_tagged_fields := u }, b9)
  else
    pure ({ partition_index := pi, error_code := ec, high_watermark := hw,
            last_stable_offset := lso, log_start_offset := lgs,
            diverging_epoch := none, current_leader := none,
            snapshot_id := none, aborted_transactions := ab,
            preferred_read_replica := prr, records := rec.getD [],
            unknown_tagged_fields := [] }, b8)

/-- Modelled from the spec: `FetchableTopicResponse` decoding, mirror of its
encoder (§4.3): nullable topic name for v ≤ 12 (null collapsing to the
default empty string), topic id from v13, partitions, trailer from v12. -/
def FetchableTopicResponse.decode (buf : List Nat) (version : Int) :
    Except CodecError (FetchableTopicResponse × List Nat) := do
  let (t, b1) ← if version ≤ 12 then
      decNullableString (decide (version ≥ 12)) buf
    else pure (none, buf)
  let (tid, b2) ← if version ≥ 13 then decUuid b1 else pure (0, b1)
  let (ps, b3) ← decNullableArray (fun b => PartitionData.decode b version)
    (decide (version ≥ 12)) b2
  if version ≥ 12 then do
    let (fs, b4) ← decRawTaggedFieldList b3
    pure ({ topic := t.getD [], topic_id := tid, partitions := ps.getD [],
            unknown_tagged_fields := fs }, b4)
  else
    pure ({ topic := t.getD [], topic_id := tid, partitions := ps.getD [],
            unknown_tagged_fields := [] }, b3)

/-- Modelled from the spec: `FetchResponse` decoding, mirror of its encoder
(§4.3): throttle from v1, error code and session id from v7, responses,
trailer from v12. -/
def FetchResponse.decode (buf : List Nat) (version : Int) :
    Except CodecError (FetchResponse × List Nat) := do
  let (th, b1) ← if version ≥ 1 then decInt32 buf else pure (0, buf)
  let (ec, b2) ← if version ≥ 7 then decInt16 b1 else pure (0, b1)
  let (sid, b3) ← if version ≥ 7 then decInt32 b2 else pure (0, b2)
  let (rs, b4) ← decNullableArray
    (fun b => FetchableTopicResponse.decode b version)
    (decide (version ≥ 12)) b3
  if version ≥ 12 then do
    let (fs, b5) ← decRawTaggedFieldList b4
    pure ({ throttle_time_ms := th, error_code := ec, session_id := sid,
            responses := rs.getD [], unknown_tagged_fields := fs }, b5)
  else
    pure ({ throttle_time_ms := th, error_code := ec, session_id := sid,
            responses := rs.getD [], unknown_tagged_fields := [] }, b4)

/-! ## Round-trip lemmas for the primitive layer -/

theorem natBytesBE_length (w n : Nat) : (natBytesBE w n).length = w := by
  induction w generalizing n with
  | zero => rfl
  | succ w ih => simp [natBytesBE, ih]

theorem natFromBE_natBytesBE (w n : Nat) :
    natFromBE (natBytesBE w n) = n % 256 ^ w := by
  induction w generalizing n with
  | zero => simp [natBytesBE, natFromBE, Nat.mod_one]
  | succ w ih =>
      have hsplit : n % 256 ^ (w + 1) = n % 256 + 256 * (n / 256 % 256 ^ w) := by
        rw [pow_succ, mul_comm (256 ^ w) 256, Nat.mod_mul]
      simp only [natBytesBE, natFromBE, List.foldl_append] at *
      rw [ih]
      simp [List.foldl]
      omega

theorem readN_append (xs r : List Nat) : readN xs.length (xs ++ r) = .ok (xs, r) := by
  simp [readN, List.take_left, List.drop_left]

theorem toUnsigned_lt (w : Nat) (i : Int) : toUnsigned w i < 2 ^ w := by
  have hpos : (0 : Int) < ((2 ^ w : Nat) : Int) := by
    exact_mod_cast pow_pos (by norm_num : (0 : Nat) < 2) w
  have h1 := Int.emod_nonneg i (ne_of_gt hpos)
  have h2 := Int.emod_lt_of_pos i hpos
  simp only [toUnsigned, natPow_eq_pow, intOfNat_eq_cast]
  omega

theorem toSigned_toUnsigned (w : Nat) (i : Int)
    (h1 : -(2 ^ w) ≤ i) (h2 : i < 2 ^ w) :
    toSigned (w + 1) (toUnsigned (w + 1) i) = i := by
  have hcastw : ((2 ^ w : Nat) : Int) = (2 : Int) ^ w := by push_cast; ring
  have hcastw1 : ((2 ^ (w + 1) : Nat) : Int) = (2 : Int) ^ w * 2 := by
    push_cast
    ring
  have hpos : (0 : Int) < ((2 ^ (w + 1) : Nat) : Int) := by
    exact_mod_cast pow_pos (by norm_num : (0 : Nat) < 2) (w + 1)
  have hmod1 := Int.emod_nonneg i (ne_of_gt hpos)
  have hmod2 := Int.emod_lt_of_pos i hpos
  have hval : i % ((2 ^ (w + 1) : Nat) : Int) =
      if 0 ≤ i then i else i + ((2 ^ (w + 1) : Nat) : Int) := by
    split
    · exact Int.emod_eq_of_lt (by assumption) (by omega)
    · have key : (i + ((2 ^ (w + 1) : Nat) : Int) * 1) % ((2 ^ (w + 1) : Nat) : Int) =
          i % ((2 ^ (w + 1) : Nat) : Int) :=
        Int.add_mul_emod_self_left i (((2 ^ (w + 1) : Nat) : Int)) 1
      rw [mul_one] at key
      rw [← key]
      exact Int.emod_eq_of_lt (by omega) (by omega)
  simp only [toSigned, toUnsigned, natPow_eq_pow, intOfNat_eq_cast, Nat.add_sub_cancel]
  split
  · next hlt =>
      have : ((i % ((2 ^ (w + 1) : Nat) : Int)).toNat : Int) < ((2 ^ w : Nat) : Int) := by
        exact_mod_cast Nat.cast_lt.mpr hlt
      omega
  · next hge =>
      have : ¬ ((i % ((2 ^ (w + 1) : Nat) : Int)).toNat : Int) < ((2 ^ w : Nat) : Int) := by
        push_neg at hge ⊢
        exact_mod_cast Nat.cast_le.mpr hge
      omega

theorem natFromBE_enc_toUnsigned (w : Nat) (i : Int) :
    natFromBE (natBytesBE w (toUnsigned (8 * w) i)) = toUnsigned (8 * w) i := by
  rw [natFromBE_natBytesBE]
  have h := toUnsigned_lt (8 * w) i
  have hpow : (2 : Nat) ^ (8 * w) = 256 ^ w := by
    rw [pow_mul]
    norm_num
  exact Nat.mod_eq_of_lt (by omega)

theorem decInt16_enc (i : Int) (r : List Nat)
    (h1 : -(2 ^ 15) ≤ i) (h2 : i < 2 ^ 15) :
    decInt16 (encInt16 i ++ r) = .ok (i, r) := by
  have hlen : (natBytesBE 2 (toUnsigned 16 i)).length = 2 := natBytesBE_length 2 _
  have hread := readN_append (natBytesBE 2 (toUnsigned 16 i)) r
  rw [hlen] at hread
  have hval : natFromBE (natBytesBE 2 (toUnsigned 16 i)) = toUnsigned 16 i :=
    natFromBE_enc_toUnsigned 2 i
  simp [decInt16, encInt16, hread, hval, bind, Except.bind, pure, Except.pure,
    toSigned_toUnsigned 15 i h1 h2]

theorem decInt32_enc (i : Int) (r : List Nat)
    (h1 : -(2 ^ 31) ≤ i) (h2 : i < 2 ^ 31) :
    decInt32 (encInt32 i ++ r) = .ok (i, r) := by
  have hlen : (natBytesBE 4 (toUnsigned 32 i)).length = 4 := natBytesBE_length 4 _
  have hread := readN_append (natBytesBE 4 (toUnsigned 32 i)) r
  rw [hlen] at hread
  have hval : natFromBE (natBytesBE 4 (toUnsigned 32 i)) = toUnsigned 32 i :=
    natFromBE_enc_toUnsigned 4 i
  simp [decInt32, encInt32, hread, hval, bind, Except.bind, pure, Except.pure,
    toSigned_toUnsigned 31 i h1 h2]

theorem decInt64_enc (i : Int) (r : List Nat)
    (h1 : -(2 ^ 63) ≤ i) (h2 : i < 2 ^ 63) :
    decInt64 (encInt64 i ++ r) = .ok (i, r) := by
  have hlen : (natBytesBE 8 (toUnsigned 64 i)).length = 8 := natBytesBE_length 8 _
  have hread := readN_append (natBytesBE 8 (toUnsigned 64 i)) r
  rw [hlen] at hread
  have hval : natFromBE (natBytesBE 8 (toUnsigned 64 i)) = toUnsigned 64 i :=
    natFromBE_enc_toUnsigned 8 i
  simp [decInt64, encInt64, hread, hval, bind, Except.bind, pure, Except.pure,
    toSigned_toUnsigned 63 i h1 h2]

theorem decUuid_enc (u : Nat) (r : List Nat) (h : u < 2 ^ 128) :
    decUuid (encUuid u ++ r) = .ok (u, r) := by
  have hlen : (natBytesBE 16 u).length = 16 := natBytesBE_length 16 _
  have hread := readN_append (natBytesBE 16 u) r
  rw [hlen] at hread
  have hval : natFromBE (natBytesBE 16 u) = u := by
    rw [natFromBE_natBytesBE]
    have hpow : (256 : Nat) ^ 16 = 2 ^ 128 := by norm_num
    exact Nat.mod_eq_of_lt (by omega)
  simp [decUuid, encUuid, hread, hval, bind, Except.bind, pure, Except.pure]

theorem decUVarintAux_enc (fuel : Nat) :
    ∀ (acc mult n : Nat) (r : List Nat), n < 128 ^ (fuel + 1) →
    decUVarintAux (fuel + 1) acc mult (encUVarintAux (fuel + 2) n ++ r) =
      .ok (acc + n * mult, r) := by
  induction fuel with
  | zero =>
      intro acc mult n r h
      have hn : n < 128 := by simpa using h
      simp [encUVarintAux, decUVarintAux, hn]
  | succ fuel ih =>
      intro acc mult n r h
      by_cases hn : n < 128
      · simp [encUVarintAux, decUVarintAux, hn]
      · have hdiv : n / 128 < 128 ^ (fuel + 1) := by
          rw [Nat.div_lt_iff_lt_mul (by norm_num : 0 < 128)]
          calc n < 128 ^ (fuel + 1 + 1) := h
            _ = 128 ^ (fuel + 1) * 128 := by ring
        have hbig : ¬ (n % 128 + 128 < 128) := by omega
        have := ih (acc + (n % 128 + 128 - 128) * mult) (mult * 128) (n / 128) r hdiv
        simp only [encUVarintAux, decUVarintAux, hn, if_neg hn, if_neg hbig,
          List.cons_append, List.append_eq] at this ⊢
        rw [this]
        have harith : acc + (n % 128 + 128 - 128) * mult + n / 128 * (mult * 128) =
            acc + n * mult := by
          have hsub : n % 128 + 128 - 128 = n % 128 := by omega
          rw [hsub]
          have hmd : n % 128 + 128 * (n / 128) = n := Nat.mod_add_div n 128
          calc acc + n % 128 * mult + n / 128 * (mult * 128)
              = acc + (n % 128 + 128 * (n / 128)) * mult := by ring
            _ = acc + n * mult := by rw [hmd]
        rw [harith]

theorem decUVarint_enc (n : Nat) (r : List Nat) (h : n < 2 ^ 32) :
    decUVarint (encUVarint n ++ r) = .ok (n, r) := by
  have hb : n < 128 ^ (4 + 1) := by
    have : (2 : Nat) ^ 32 ≤ 128 ^ 5 := by norm_num
    omega
  have := decUVarintAux_enc 4 0 1 n r hb
  simpa [decUVarint, encUVarint] using this

theorem decNullableString_enc_some (compact : Bool) (bs r : List Nat)
    (hc : compact = true → bs.length + 1 < 2 ^ 32)
    (hnc : compact = false → bs.length < 2 ^ 15) :
    decNullableString compact (encNullableString compact (some bs) ++ r) =
      .ok (some bs, r) := by
  cases compact with
  | true =>
      have hdec := decUVarint_enc (bs.length + 1) (bs ++ r) (hc rfl)
      simp [decNullableString, encNullableString, List.append_assoc, hdec,
        bind, Except.bind, pure, Except.pure, readN_append]
  | false =>
      have hlen : bs.length < 2 ^ 15 := hnc rfl
      have hdec := decInt16_enc (bs.length : Int) (bs ++ r)
        (le_trans (by norm_num) (Int.natCast_nonneg bs.length))
        (by exact_mod_cast hlen)
      have hne : ((bs.length : Int) = -1) = False := by
        simp only [eq_iff_iff, iff_false]
        have := Int.natCast_nonneg bs.length
        omega
      have hnn : ¬ ((bs.length : Int) < 0) := not_lt.mpr (Int.natCast_nonneg bs.length)
      simp [decNullableString, encNullableString, List.append_assoc, hdec,
        bind, Except.bind, pure, Except.pure, hne, hnn, readN_append]

theorem decNullableString_enc_none (compact : Bool) (r : List Nat) :
    decNullableString compact (encNullableString compact none ++ r) =
      .ok (none, r) := by
  cases compact with
  | true =>
      have hdec := decUVarint_enc 0 r (by norm_num)
      simp only [decNullableString, encNullableString, ite_true]
      rw [hdec]
      rfl
  | false =>
      have hdec := decInt16_enc (-1) r (by norm_num) (by norm_num)
      simp only [decNullableString, encNullableString, Bool.false_eq_true,
        ite_false]
      rw [hdec]
      rfl

theorem decNullableBytes_enc_some (compact : Bool) (bs r : List Nat)
    (hc : compact = true → bs.length + 1 < 2 ^ 32)
    (hnc : compact = false → bs.length < 2 ^ 31) :
    decNullableBytes compact (encNullableBytes compact (some bs) ++ r) =
      .ok (some bs, r) := by
  cases compact with
  | true =>
      have hdec := decUVarint_enc (bs.length + 1) (bs ++ r) (hc rfl)
      simp [decNullableBytes, encNullableBytes, List.append_assoc, hdec,
        bind, Except.bind, pure, Except.pure, readN_append]
  | false =>
      have hlen : bs.length < 2 ^ 31 := hnc rfl
      have hdec := decInt32_enc (bs.length : Int) (bs ++ r)
        (le_trans (by norm_num) (Int.natCast_nonneg bs.length))
        (by exact_mod_cast hlen)
      have hne : ((bs.length : Int) = -1) = False := by
        simp only [eq_iff_iff, iff_false]
        have := Int.natCast_nonneg bs.length
        omega
      have hnn : ¬ ((bs.length : Int) < 0) := not_lt.mpr (Int.natCast_nonneg bs.length)
      simp [decNullableBytes, encNullableBytes, List.append_assoc, hdec,
        bind, Except.bind, pure, Except.pure, hne, hnn, readN_append]

theorem decNullableBytes_enc_none (compact : Bool) (r : List Nat) :
    decNullableBytes compact (encNullableBytes compact none ++ r) =
      .ok (none, r) := by
  cases compact with
  | true =>
      have hdec := decUVarint_enc 0 r (by norm_num)
      simp only [decNullableBytes, encNullableBytes, ite_true]
      rw [hdec]
      rfl
  | false =>
      have hdec := decInt32_enc (-1) r (by norm_num) (by norm_num)
      simp only [decNullableBytes, encNullableBytes, Bool.false_eq_true,
        ite_false]
      rw [hdec]
      rfl
theorem decListN_encList (enc : α → Except CodecError (List Nat))
    (dec : List Nat → Except CodecError (α × List Nat)) :
    ∀ (xs : List α),
    (∀ x ∈ xs, ∀ r, ∃ b, enc x = .ok b ∧ dec (b ++ r) = .ok (x, r)) →
    ∀ r : List Nat, ∃ bs, encList enc xs = .ok bs ∧
      decListN dec xs.length (bs ++ r) = .ok (xs, r) := by
  intro xs
  induction xs with
  | nil =>
      intro _ r
      exact ⟨[], rfl, rfl⟩
  | cons x xs ih =>
      intro h r
      obtain ⟨bs, hbs, hdecs⟩ :=
        ih (fun y hy r' => h y (List.mem_cons_of_mem _ hy) r') r
      obtain ⟨b, hb, hdecb⟩ := h x (List.mem_cons_self _ _) (bs ++ r)
      refine ⟨b ++ bs, ?_, ?_⟩
      · simp [encList, hb, hbs, bind, Except.bind, pure, Except.pure]
      · simp only [List.length_cons, decListN, List.append_assoc, hdecb,
          bind, Except.bind, hdecs, pure, Except.pure]

theorem decNullableArray_enc_some (enc : α → Except CodecError (List Nat))
    (dec : List Nat → Except CodecError (α × List Nat))
    (compact : Bool) (xs : List α)
    (hc : compact = true → xs.length + 1 < 2 ^ 32)
    (hnc : compact = false → xs.length < 2 ^ 31)
    (helem : ∀ x ∈ xs, ∀ r, ∃ b, enc x = .ok b ∧ dec (b ++ r) = .ok (x, r)) :
    ∀ r : List Nat, ∃ bs, encNullableArray enc compact (some xs) = .ok bs ∧
      decNullableArray dec compact (bs ++ r) = .ok (some xs, r) := by
  intro r
  obtain ⟨bs, hbs, hdecs⟩ := decListN_encList enc dec xs helem r
  cases compact with
  | true =>
      refine ⟨encUVarint (xs.length + 1) ++ bs, ?_, ?_⟩
      · simp [encNullableArray, hbs, bind, Except.bind, pure, Except.pure]
      · have hvar := decUVarint_enc (xs.length + 1) (bs ++ r) (hc rfl)
        simp only [decNullableArray, ite_true, List.append_assoc, hvar,
          bind, Except.bind, Nat.succ_ne_zero, ite_false, Nat.add_sub_cancel,
          hdecs, pure, Except.pure]
  | false =>
      refine ⟨encInt32 (xs.length : Int) ++ bs, ?_, ?_⟩
      · simp [encNullableArray, hbs, bind, Except.bind, pure, Except.pure]
      · have hlen : xs.length < 2 ^ 31 := hnc rfl
        have hint := decInt32_enc (xs.length : Int) (bs ++ r)
          (le_trans (by norm_num) (Int.natCast_nonneg xs.length))
          (by exact_mod_cast hlen)
        have hne : ¬ ((xs.length : Int) = -1) := by
          have := Int.natCast_nonneg xs.length
          omega
        have hnn : ¬ ((xs.length : Int) < 0) := not_lt.mpr (Int.natCast_nonneg xs.length)
        simp only [decNullableArray, Bool.false_eq_true, ite_false,
          List.append_assoc, hint, bind, Except.bind, hne, hnn,
          Int.toNat_natCast, hdecs, pure, Except.pure]

theorem decNullableArray_enc_none
    (dec : List Nat → Except CodecError (α × List Nat))
    (compact : Bool) (r : List Nat) :
    decNullableArray dec compact
      ((if compact then encUVarint 0 else encInt32 (-1)) ++ r) =
      .ok (none, r) := by
  cases compact with
  | true =>
      have hvar := decUVarint_enc 0 r (by norm_num)
      simp only [decNullableArray, ite_true]
      rw [hvar]
      rfl
  | false =>
      have hint := decInt32_enc (-1) r (by norm_num) (by norm_num)
      simp only [decNullableArray, Bool.false_eq_true, ite_false]
      rw [hint]
      rfl

theorem decTaggedEntries_enc :
    ∀ (fs : List RawTaggedField) (minTag : Nat) (r : List Nat),
    tagsAscendingFrom minTag fs = true →
    (∀ f ∈ fs, f.tag < 2 ^ 32 ∧ f.data.length < 2 ^ 32) →
    decTaggedEntries fs.length minTag (encTaggedEntries fs ++ r) = .ok (fs, r) := by
  intro fs
  induction fs with
  | nil =>
      intro minTag r _ _
      rfl
  | cons f fs ih =>
      intro minTag r hasc hwf
      rw [tagsAscendingFrom, Bool.and_eq_true, decide_eq_true_eq] at hasc
      obtain ⟨htag, hdata⟩ := hwf f (List.mem_cons_self _ _)
      have htagdec := decUVarint_enc f.tag
        (encUVarint f.data.length ++ (f.data ++ (encTaggedEntries fs ++ r))) htag
      have hlendec := decUVarint_enc f.data.length
        (f.data ++ (encTaggedEntries fs ++ r)) hdata
      have hread := readN_append f.data (encTaggedEntries fs ++ r)
      have hih := ih (f.tag + 1) r hasc.2
        (fun g hg => hwf g (List.mem_cons_of_mem _ hg))
      have hnotlt : ¬ (f.tag < minTag) := by omega
      simp only [List.length_cons, encTaggedEntries, decTaggedEntries,
        List.append_assoc, htagdec, bind, Except.bind, hnotlt, ite_false,
        hlendec, hread, hih, pure, Except.pure]

theorem decRawTaggedFieldList_enc (fs : List RawTaggedField) (r : List Nat)
    (hasc : tagsAscending fs = true)
    (hwf : ∀ f ∈ fs, f.tag < 2 ^ 32 ∧ f.data.length < 2 ^ 32)
    (hn : fs.length < 2 ^ 32) :
    decRawTaggedFieldList (encRawTaggedFieldList fs ++ r) = .ok (fs, r) := by
  have hcount := decUVarint_enc fs.length (encTaggedEntries fs ++ r) hn
  have hentries := decTaggedEntries_enc fs 0 r hasc hwf
  simp only [decRawTaggedFieldList, encRawTaggedFieldList, List.append_assoc,
    hcount, bind, Except.bind]
  exact hentries

/-! ## Assignability: type invariants of the Rust field types plus the
spec's notion of a value assignable at a version (§8 Round-trip). -/

/-- Range invariant of a Rust `i16` field. -/
def i16Bounds (i : Int) : Prop := -(2 ^ 15) ≤ i ∧ i < 2 ^ 15

/-- Range invariant of a Rust `i32` field. -/
def i32Bounds (i : Int) : Prop := -(2 ^ 31) ≤ i ∧ i < 2 ^ 31

/-- Range invariant of a Rust `i64` field. -/
def i64Bounds (i : Int) : Prop := -(2 ^ 63) ≤ i ∧ i < 2 ^ 63

/-- Well-formed unknown tagged fields: `u32` tags and sizes, a `u32` count,
and strictly ascending tags (the wire invariant of the trailer, §6). -/
def taggedWF (fs : List RawTaggedField) : Prop :=
  fs.length < 2 ^ 32 ∧ tagsAscending fs = true ∧
  ∀ f ∈ fs, f.tag < 2 ^ 32 ∧ f.data.length < 2 ^ 32

/-- Reduction of an `Except` bind over a success value. -/
theorem exceptBind_ok (a : α) (f : α → Except CodecError β) :
    (bind (Except.ok a) f : Except CodecError β) = f a := rfl

/-- The bytes `EpochEndOffset::encode` writes at any flexible version (the
layout is version-independent once v ≥ 12). -/
def EpochEndOffset.wireBytes (x : EpochEndOffset) : List Nat :=
  encInt32 x.epoch ++ encInt64 x.end_offset ++
  encRawTaggedFieldList x.unknown_tagged_fields

/-- `EpochEndOffset` values assignable at a flexible version. -/
def EpochEndOffset.assignable (x : EpochEndOffset) : Prop :=
  i32Bounds x.epoch ∧ i64Bounds x.end_offset ∧ taggedWF x.unknown_tagged_fields

theorem epochEndOffset_encode_eq (x : EpochEndOffset) (v : Int) (h : 12 ≤ v) :
    x.encode v = .ok x.wireBytes := by
  simp only [EpochEndOffset.encode, EpochEndOffset.wireBytes,
    if_neg (not_lt.mpr h)]

theorem epochEndOffset_dec_wire (x : EpochEndOffset) (v : Int) (h : 12 ≤ v)
    (ha : x.assignable) (r : List Nat) :
    EpochEndOffset.decode (x.wireBytes ++ r) v = .ok (x, r) := by
  obtain ⟨⟨he1, he2⟩, ⟨ho1, ho2⟩, hn, hasc, hwf⟩ := ha
  have h32 := decInt32_enc x.epoch (encInt64 x.end_offset ++
    (encRawTaggedFieldList x.unknown_tagged_fields ++ r)) he1 he2
  have h64 := decInt64_enc x.end_offset
    (encRawTaggedFieldList x.unknown_tagged_fields ++ r) ho1 ho2
  have htf := decRawTaggedFieldList_enc x.unknown_tagged_fields r hasc hwf hn
  simp only [EpochEndOffset.decode, EpochEndOffset.wireBytes, List.append_assoc]
  rw [if_neg (not_lt.mpr h), h32]
  simp only [exceptBind_ok]
  rw [h64]
  simp only [exceptBind_ok]
  rw [htf]
  simp only [exceptBind_ok]
  rfl

/-- The bytes `LeaderIdAndEpoch::encode` writes at any flexible version. -/
def LeaderIdAndEpoch.wireBytes (x : LeaderIdAndEpoch) : List Nat :=
  encInt32 x.leader_id ++ encInt32 x.leader_epoch ++
  encRawTaggedFieldList x.unknown_tagged_fields

/-- `LeaderIdAndEpoch` values assignable at a flexible version. -/
def LeaderIdAndEpoch.assignable (x : LeaderIdAndEpoch) : Prop :=
  i32Bounds x.leader_id ∧ i32Bounds x.leader_epoch ∧
  taggedWF x.unknown_tagged_fields

theorem leaderIdAndEpoch_encode_eq (x : LeaderIdAndEpoch) (v : Int)
    (h : 12 ≤ v) : x.encode v = .ok x.wireBytes := by
  simp only [LeaderIdAndEpoch.encode, LeaderIdAndEpoch.wireBytes,
    if_neg (not_lt.mpr h)]

theorem leaderIdAndEpoch_dec_wire (x : LeaderIdAndEpoch) (v : Int) (h : 12 ≤ v)
    (ha : x.assignable) (r : List Nat) :
    LeaderIdAndEpoch.decode (x.wireBytes ++ r) v = .ok (x, r) := by
  obtain ⟨⟨he1, he2⟩, ⟨ho1, ho2⟩, hn, hasc, hwf⟩ := ha
  have hl := decInt32_enc x.leader_id (encInt32 x.leader_epoch ++
    (encRawTaggedFieldList x.unknown_tagged_fields ++ r)) he1 he2
  have he := decInt32_enc x.leader_epoch
    (encRawTaggedFieldList x.unknown_tagged_fields ++ r) ho1 ho2
  have htf := decRawTaggedFieldList_enc x.unknown_tagged_fields r hasc hwf hn
  simp only [LeaderIdAndEpoch.decode, LeaderIdAndEpoch.wireBytes,
    List.append_assoc]
  rw [if_neg (not_lt.mpr h), hl]
  simp only [exceptBind_ok]
  rw [he]
  simp only [exceptBind_ok]
  rw [htf]
  simp only [exceptBind_ok]
  rfl

/-- The bytes `SnapshotId::encode` writes at any flexible version. -/
def SnapshotId.wireBytes (x : SnapshotId) : List Nat :=
  encInt64 x.end_offset ++ encInt32 x.epoch ++
  encRawTaggedFieldList x.unknown_tagged_fields

/-- `SnapshotId` values assignable at a flexible version. -/
def SnapshotId.assignable (x : SnapshotId) : Prop :=
  i64Bounds x.end_offset ∧ i32Bounds x.epoch ∧ taggedWF x.unknown_tagged_fields

theorem snapshotId_encode_eq (x : SnapshotId) (v : Int) (h : 12 ≤ v) :
    x.encode v = .ok x.wireBytes := by
  simp only [SnapshotId.encode, SnapshotId.wireBytes, if_neg (not_lt.mpr h)]

theorem snapshotId_dec_wire (x : SnapshotId) (v : Int) (h : 12 ≤ v)
    (ha : x.assignable) (r : List Nat) :
    SnapshotId.decode (x.wireBytes ++ r) v = .ok (x, r) := by
  obtain ⟨⟨he1, he2⟩, ⟨ho1, ho2⟩, hn, hasc, hwf⟩ := ha
  have ho := decInt64_enc x.end_offset (encInt32 x.epoch ++
    (encRawTaggedFieldList x.unknown_tagged_fields ++ r)) he1 he2
  have he := decInt32_enc x.epoch
    (encRawTaggedFieldList x.unknown_tagged_fields ++ r) ho1 ho2
  have htf := decRawTaggedFieldList_enc x.unknown_tagged_fields r hasc hwf hn
  simp only [SnapshotId.decode, SnapshotId.wireBytes, List.append_assoc]
  rw [if_neg (not_lt.mpr h), ho]
  simp only [exceptBind_ok]
  rw [he]
  simp only [exceptBind_ok]
  rw [htf]
  simp only [exceptBind_ok]
  rfl

/-- The bytes `AbortedTransaction::encode` writes at a supported version. -/
def AbortedTransaction.wireBytes (x : AbortedTransaction) (v : Int) : List Nat :=
  encInt64 x.producer_id ++ encInt64 x.first_offset ++
  (if v ≥ 12 then encRawTaggedFieldList x.unknown_tagged_fields else [])

/-- `AbortedTransaction` values assignable at version `v`. -/
def AbortedTransaction.assignable (x : AbortedTransaction) (v : Int) : Prop :=
  i64Bounds x.producer_id ∧ i64Bounds x.first_offset ∧
  (v < 12 → x.unknown_tagged_fields = []) ∧
  (12 ≤ v → taggedWF x.unknown_tagged_fields)

theorem abortedTransaction_encode_eq (x : AbortedTransaction) (v : Int)
    (h : 4 ≤ v) : x.encode v = .ok (x.wireBytes v) := by
  simp only [AbortedTransaction.encode, AbortedTransaction.wireBytes,
    if_neg (not_lt.mpr h)]

theorem abortedTransaction_dec_wire (x : AbortedTransaction) (v : Int)
    (h : 4 ≤ v) (ha : x.assignable v) (r : List Nat) :
    AbortedTransaction.decode (x.wireBytes v ++ r) v = .ok (x, r) := by
  obtain ⟨⟨hp1, hp2⟩, ⟨hf1, hf2⟩, hlo, hhi⟩ := ha
  by_cases h12 : 12 ≤ v
  · obtain ⟨hn, hasc, hwf⟩ := hhi h12
    have hp := decInt64_enc x.producer_id (encInt64 x.first_offset ++
      (encRawTaggedFieldList x.unknown_tagged_fields ++ r)) hp1 hp2
    have hf := decInt64_enc x.first_offset
      (encRawTaggedFieldList x.unknown_tagged_fields ++ r) hf1 hf2
    have htf := decRawTaggedFieldList_enc x.unknown_tagged_fields r hasc hwf hn
    simp only [AbortedTransaction.decode, AbortedTransaction.wireBytes,
      ge_iff_le, if_pos h12, List.append_assoc]
    rw [if_neg (not_lt.mpr h), hp]
    simp only [exceptBind_ok]
    rw [hf]
    simp only [exceptBind_ok]
    rw [htf]
    simp only [exceptBind_ok]
    rfl
  · have hu : x.unknown_tagged_fields = [] := hlo (by omega)
    have hp := decInt64_enc x.producer_id (encInt64 x.first_offset ++ r) hp1 hp2
    have hf := decInt64_enc x.first_offset r hf1 hf2
    simp only [AbortedTransaction.decode, AbortedTransaction.wireBytes,
      ge_iff_le, if_neg h12, List.append_nil, List.append_assoc]
    rw [if_neg (not_lt.mpr h), hp]
    simp only [exceptBind_ok]
    rw [hf]
    simp only [exceptBind_ok]
    rw [← hu]
    rfl

/-- Reduction of `pure` into the `Except` success constructor. -/
theorem exceptPure_eq (a : α) : (pure a : Except CodecError α) = .ok a := rfl

/-- Byte form of `NullableArray.encode` when every element encoder succeeds
with known bytes. -/
def encNullableArrayBytes (f : α → List Nat) (compact : Bool)
    (xs : Option (List α)) : List Nat :=
  match xs with
  | none => if compact then encUVarint 0 else encInt32 (-1)
  | some l =>
      (if compact then encUVarint (l.length + 1) else encInt32 l.length) ++
      (l.map f).flatten

theorem encList_ok (enc : α → Except CodecError (List Nat)) (f : α → List Nat) :
    ∀ xs : List α, (∀ x ∈ xs, enc x = .ok (f x)) →
    encList enc xs = .ok (xs.map f).flatten := by
  intro xs
  induction xs with
  | nil => intro _; rfl
  | cons x xs ih =>
      intro h
      have hx := h x (List.mem_cons_self _ _)
      have hxs := ih (fun y hy => h y (List.mem_cons_of_mem _ hy))
      simp only [encList, hx, bind, Except.bind, hxs, List.map_cons,
        List.flatten_cons, pure, Except.pure]

theorem encNullableArray_eq (enc : α → Except CodecError (List Nat))
    (f : α → List Nat) (compact : Bool) (xs : Option (List α))
    (h : ∀ l, xs = some l → ∀ a ∈ l, enc a = .ok (f a)) :
    encNullableArray enc compact xs = .ok (encNullableArrayBytes f compact xs) := by
  cases xs with
  | none => rfl
  | some l =>
      have hl := encList_ok enc f l (h l rfl)
      simp only [encNullableArray, encNullableArrayBytes, hl, bind,
        Except.bind, pure, Except.pure]

theorem decNullableArray_bytes (enc : α → Except CodecError (List Nat))
    (dec : List Nat → Except CodecError (α × List Nat))
    (f : α → List Nat) (compact : Bool) (xs : List α)
    (hc : compact = true → xs.length + 1 < 2 ^ 32)
    (hnc : compact = false → xs.length < 2 ^ 31)
    (helem : ∀ a ∈ xs, enc a = .ok (f a) ∧ ∀ r, dec (f a ++ r) = .ok (a, r)) :
    ∀ r : List Nat,
    decNullableArray dec compact (encNullableArrayBytes f compact (some xs) ++ r) =
      .ok (some xs, r) := by
  intro r
  obtain ⟨bs, hbs, hdec⟩ := decNullableArray_enc_some enc dec compact xs hc hnc
    (fun x hx r' => ⟨f x, (helem x hx).1, (helem x hx).2 r'⟩) r
  have heq := encNullableArray_eq enc f compact (some xs)
    (fun l hl => by cases hl; exact fun a ha => (helem a ha).1)
  rw [hbs] at heq
  have hbytes : bs = encNullableArrayBytes f compact (some xs) := by
    injection heq
  rw [← hbytes]
  exact hdec

theorem decNullableArray_bytes_none
    (dec : List Nat → Except CodecError (α × List Nat))
    (f : α → List Nat) (compact : Bool) (r : List Nat) :
    decNullableArray dec compact
      (encNullableArrayBytes f compact (none : Option (List α)) ++ r) =
      .ok (none, r) := by
  exact decNullableArray_enc_none dec compact r

/-! ## PartitionData: trailer merge, wire form, assignability -/

/-- The known optional sub-records of `PartitionData`, pushed under tags
0/1/2 exactly in the order `PartitionData::encode` pushes them. -/
def PartitionData.knownTagged (x : PartitionData) : List RawTaggedField :=
  (match x.diverging_epoch with
   | some e => [RawTaggedField.mk 0 e.wireBytes]
   | none => []) ++
  (match x.current_leader with
   | some c => [RawTaggedField.mk 1 c.wireBytes]
   | none => []) ++
  (match x.snapshot_id with
   | some s => [RawTaggedField.mk 2 s.wireBytes]
   | none => [])

/-- The combined tagged-field list `PartitionData::encode` hands to
`RawTaggedFieldList.encode` at a flexible version: known sub-records in push
order followed by the stored unknown tagged fields, unsorted and unchecked. -/
def PartitionData.mergedTrailer (x : PartitionData) : List RawTaggedField :=
  x.knownTagged ++ x.unknown_tagged_fields

/-- The bytes `PartitionData::encode` writes at version `v`. -/
def PartitionData.wireBytes (x : PartitionData) (v : Int) : List Nat :=
  encInt32 x.partition_index ++ encInt16 x.error_code ++
  encInt64 x.high_watermark ++
  (if v ≥ 4 then encInt64 x.last_stable_offset else []) ++
  (if v ≥ 5 then encInt64 x.log_start_offset else []) ++
  (if v ≥ 4 then
    encNullableArrayBytes (fun a => a.wireBytes v) (decide (v ≥ 12))
      x.aborted_transactions
  else []) ++
  (if v ≥ 11 then encInt32 x.preferred_read_replica else []) ++
  encNullableBytes (decide (v ≥ 12)) (some x.records) ++
  (if v ≥ 12 then encRawTaggedFieldList x.mergedTrailer else [])

/-- `PartitionData` values assignable at version `v` (§8 Round-trip: fields
outside their presence window hold their defaults; unknown tagged fields do
not clash with the known tags 0/1/2 and satisfy the wire invariants). -/
def PartitionData.assignable (x : PartitionData) (v : Int) : Prop :=
  i32Bounds x.partition_index ∧ i16Bounds x.error_code ∧
  i64Bounds x.high_watermark ∧
  i64Bounds x.last_stable_offset ∧ (v < 4 → x.last_stable_offset = 0) ∧
  i64Bounds x.log_start_offset ∧ (v < 5 → x.log_start_offset = 0) ∧
  (v < 4 → x.aborted_transactions = none) ∧
  (∀ l, x.aborted_transactions = some l →
    (12 ≤ v → l.length + 1 < 2 ^ 32) ∧ (v < 12 → l.length < 2 ^ 31) ∧
    ∀ a ∈ l, a.assignable v) ∧
  i32Bounds x.preferred_read_replica ∧ (v < 11 → x.preferred_read_replica = 0) ∧
  (12 ≤ v → x.records.length + 1 < 2 ^ 32) ∧ (v < 12 → x.records.length < 2 ^ 31) ∧
  (v < 12 → x.diverging_epoch = none ∧ x.current_leader = none ∧
    x.snapshot_id = none ∧ x.unknown_tagged_fields = []) ∧
  (12 ≤ v →
    (∀ e, x.diverging_epoch = some e →
      e.assignable ∧ e.wireBytes.length < 2 ^ 32) ∧
    (∀ c, x.current_leader = some c →
      c.assignable ∧ c.wireBytes.length < 2 ^ 32) ∧
    (∀ s, x.snapshot_id = some s →
      s.assignable ∧ s.wireBytes.length < 2 ^ 32) ∧
    taggedWF x.unknown_tagged_fields ∧
    x.unknown_tagged_fields.length + 3 < 2 ^ 32 ∧
    (∀ f ∈ x.unknown_tagged_fields, 3 ≤ f.tag))

theorem partitionData_encode_eq (x : PartitionData) (v : Int) :
    x.encode v = .ok (x.wireBytes v) := by
  obtain ⟨pi, ec, hw, lso, lgs, de, cl, si, ab, prr, rec, utf⟩ := x
  by_cases h12 : (12 : Int) ≤ v
  · have h4 : (4 : Int) ≤ v := by omega
    simp only [PartitionData.encode, PartitionData.wireBytes,
      PartitionData.mergedTrailer, PartitionData.knownTagged, if_pos h12,
      if_pos h4]
    rw [encNullableArray_eq _ (fun a => a.wireBytes v) _ ab
      (fun l _ a _ => abortedTransaction_encode_eq a v h4)]
    simp only [exceptBind_ok]
    cases de with
    | none =>
        cases cl with
        | none =>
            cases si with
            | none => simp [exceptBind_ok, exceptPure_eq, List.append_assoc]
            | some s =>
                simp [snapshotId_encode_eq s v h12, exceptBind_ok,
                  exceptPure_eq, List.append_assoc]
        | some c =>
            cases si with
            | none =>
                simp [leaderIdAndEpoch_encode_eq c v h12, exceptBind_ok,
                  exceptPure_eq, List.append_assoc]
            | some s =>
                simp [leaderIdAndEpoch_encode_eq c v h12,
                  snapshotId_encode_eq s v h12, exceptBind_ok, exceptPure_eq,
                  List.append_assoc]
    | some e =>
        cases cl with
        | none =>
            cases si with
            | none =>
                simp [epochEndOffset_encode_eq e v h12, exceptBind_ok,
                  exceptPure_eq, List.append_assoc]
            | some s =>
                simp [epochEndOffset_encode_eq e v h12,
                  snapshotId_encode_eq s v h12, exceptBind_ok, exceptPure_eq,
                  List.append_assoc]
        | some c =>
            cases si with
            | none =>
                simp [epochEndOffset_encode_eq e v h12,
                  leaderIdAndEpoch_encode_eq c v h12, exceptBind_ok,
                  exceptPure_eq, List.append_assoc]
            | some s =>
                simp [epochEndOffset_encode_eq e v h12,
                  leaderIdAndEpoch_encode_eq c v h12,
                  snapshotId_encode_eq s v h12, exceptBind_ok, exceptPure_eq,
                  List.append_assoc]
  · by_cases h4 : (4 : Int) ≤ v
    · simp only [PartitionData.encode, PartitionData.wireBytes, if_neg h12,
        if_pos h4]
      rw [encNullableArray_eq _ (fun a => a.wireBytes v) _ ab
        (fun l _ a _ => abortedTransaction_encode_eq a v h4)]
      simp only [exceptBind_ok]
      simp [exceptPure_eq, List.append_assoc]
    · simp only [PartitionData.encode, PartitionData.wireBytes, if_neg h12,
        if_neg h4]
      simp [exceptBind_ok, exceptPure_eq, List.append_assoc]

/-! ## Claiming the PartitionData trailer -/

theorem tagsAscendingFrom_of_le (fs : List RawTaggedField) (m m' : Nat)
    (h : tagsAscendingFrom m fs = true) (h' : ∀ f ∈ fs, m' ≤ f.tag) :
    tagsAscendingFrom m' fs = true := by
  cases fs with
  | nil => rfl
  | cons f fs =>
      rw [tagsAscendingFrom, Bool.and_eq_true] at h ⊢
      exact ⟨decide_eq_true (h' f (List.mem_cons_self _ _)), h.2⟩

theorem tagsAscendingFrom_utf (m : Nat) (hm : m ≤ 3) (utf : List RawTaggedField)
    (hasc : tagsAscending utf = true) (h3 : ∀ f ∈ utf, 3 ≤ f.tag) :
    tagsAscendingFrom m utf = true :=
  tagsAscendingFrom_of_le utf 0 m hasc (fun f hf => le_trans hm (h3 f hf))

theorem tagsAscendingFrom_cons (t : Nat) (d : List Nat)
    (fs : List RawTaggedField) (m : Nat) (h1 : m ≤ t)
    (h2 : tagsAscendingFrom (t + 1) fs = true) :
    tagsAscendingFrom m (RawTaggedField.mk t d :: fs) = true := by
  rw [tagsAscendingFrom, Bool.and_eq_true]
  exact ⟨decide_eq_true h1, h2⟩

theorem claimTags_unknowns (v : Int) :
    ∀ fs : List RawTaggedField, (∀ f ∈ fs, 3 ≤ f.tag) →
    PartitionData.claimTags v fs = .ok (none, none, none, fs) := by
  intro fs
  induction fs with
  | nil => intro _; rfl
  | cons f fs ih =>
      intro h
      have hf := h f (List.mem_cons_self _ _)
      have h0 : ¬ (f.tag = 0) := by omega
      have h1 : ¬ (f.tag = 1) := by omega
      have h2 : ¬ (f.tag = 2) := by omega
      simp only [PartitionData.claimTags,
        ih (fun g hg => h g (List.mem_cons_of_mem _ hg)), exceptBind_ok,
        if_neg h0, if_neg h1, if_neg h2, exceptPure_eq]

theorem parseFull_epoch (e : EpochEndOffset) (v : Int) (h : 12 ≤ v)
    (ha : e.assignable) :
    parseFull (fun b => EpochEndOffset.decode b v) e.wireBytes = .ok e := by
  have h0 := epochEndOffset_dec_wire e v h ha []
  rw [List.append_nil] at h0
  simp only [parseFull, h0, exceptBind_ok, ite_true]
  rfl

theorem parseFull_leader (c : LeaderIdAndEpoch) (v : Int) (h : 12 ≤ v)
    (ha : c.assignable) :
    parseFull (fun b => LeaderIdAndEpoch.decode b v) c.wireBytes = .ok c := by
  have h0 := leaderIdAndEpoch_dec_wire c v h ha []
  rw [List.append_nil] at h0
  simp only [parseFull, h0, exceptBind_ok, ite_true]
  rfl

theorem parseFull_snapshot (s : SnapshotId) (v : Int) (h : 12 ≤ v)
    (ha : s.assignable) :
    parseFull (fun b => SnapshotId.decode b v) s.wireBytes = .ok s := by
  have h0 := snapshotId_dec_wire s v h ha []
  rw [List.append_nil] at h0
  simp only [parseFull, h0, exceptBind_ok, ite_true]
  rfl

theorem mergedTrailer_wf (x : PartitionData)
    (hde : ∀ e, x.diverging_epoch = some e → e.wireBytes.length < 2 ^ 32)
    (hcl : ∀ c, x.current_leader = some c → c.wireBytes.length < 2 ^ 32)
    (hsi : ∀ s, x.snapshot_id = some s → s.wireBytes.length < 2 ^ 32)
    (hwfu : taggedWF x.unknown_tagged_fields)
    (hlen3 : x.unknown_tagged_fields.length + 3 < 2 ^ 32)
    (htags3 : ∀ f ∈ x.unknown_tagged_fields, 3 ≤ f.tag) :
    taggedWF x.mergedTrailer := by
  obtain ⟨hn, hasc, hwf⟩ := hwfu
  have hmem : ∀ m, m ≤ 3 →
      tagsAscendingFrom m x.unknown_tagged_fields = true :=
    fun m hm => tagsAscendingFrom_utf m hm x.unknown_tagged_fields hasc htags3
  refine ⟨?_, ?_, ?_⟩
  · simp only [PartitionData.mergedTrailer, PartitionData.knownTagged,
      List.length_append]
    cases x.diverging_epoch <;> cases x.current_leader <;>
      cases x.snapshot_id <;> simp <;> omega
  · simp only [PartitionData.mergedTrailer, PartitionData.knownTagged,
      tagsAscending]
    cases x.diverging_epoch with
    | none =>
        cases x.current_leader with
        | none =>
            cases x.snapshot_id with
            | none => simpa using hmem 0 (by omega)
            | some s =>
                simp only [List.nil_append]
                exact tagsAscendingFrom_cons 2 _ _ 0 (by omega)
                  (hmem 3 (by omega))
        | some c =>
            cases x.snapshot_id with
            | none =>
                simp only [List.nil_append, List.append_nil,
                  List.cons_append]
                exact tagsAscendingFrom_cons 1 _ _ 0 (by omega)
                  (hmem 2 (by omega))
            | some s =>
                simp only [List.nil_append, List.cons_append]
                exact tagsAscendingFrom_cons 1 _ _ 0 (by omega)
                  (tagsAscendingFrom_cons 2 _ _ 2 (by omega)
                    (hmem 3 (by omega)))
    | some e =>
        cases x.current_leader with
        | none =>
            cases x.snapshot_id with
            | none =>
                simp only [List.nil_append, List.append_nil,
                  List.cons_append]
                exact tagsAscendingFrom_cons 0 _ _ 0 (by omega)
                  (hmem 1 (by omega))
            | some s =>
                simp only [List.nil_append, List.cons_append]
                exact tagsAscendingFrom_cons 0 _ _ 0 (by omega)
                  (tagsAscendingFrom_cons 2 _ _ 1 (by omega)
                    (hmem 3 (by omega)))
        | some c =>
            cases x.snapshot_id with
            | none =>
                simp only [List.nil_append, List.append_nil,
                  List.cons_append]
                exact tagsAscendingFrom_cons 0 _ _ 0 (by omega)
                  (tagsAscendingFrom_cons 1 _ _ 1 (by omega)
                    (hmem 2 (by omega)))
            | some s =>
                simp only [List.nil_append, List.cons_append]
                exact tagsAscendingFrom_cons 0 _ _ 0 (by omega)
                  (tagsAscendingFrom_cons 1 _ _ 1 (by omega)
                    (tagsAscendingFrom_cons 2 _ _ 2 (by omega)
                      (hmem 3 (by omega))))
  · intro f hf
    simp only [PartitionData.mergedTrailer, List.mem_append] at hf
    cases hf with
    | inr hu => exact hwf f hu
    | inl hk =>
        simp only [PartitionData.knownTagged, List.mem_append] at hk
        rcases hk with (hk | hk) | hk
        · cases hdd : x.diverging_epoch with
          | none => rw [hdd] at hk; cases hk
          | some e =>
              rw [hdd] at hk
              simp only [List.mem_singleton] at hk
              subst hk
              exact ⟨by norm_num, hde e hdd⟩
        · cases hdd : x.current_leader with
          | none => rw [hdd] at hk; cases hk
          | some c =>
              rw [hdd] at hk
              simp only [List.mem_singleton] at hk
              subst hk
              exact ⟨by norm_num, hcl c hdd⟩
        · cases hdd : x.snapshot_id with
          | none => rw [hdd] at hk; cases hk
          | some s =>
              rw [hdd] at hk
              simp only [List.mem_singleton] at hk
              subst hk
              exact ⟨by norm_num, hsi s hdd⟩

theorem partitionData_claimTags_merged (x : PartitionData) (v : Int)
    (h12 : 12 ≤ v)
    (hde : ∀ e, x.diverging_epoch = some e → e.assignable)
    (hcl : ∀ c, x.current_leader = some c → c.assignable)
    (hsi : ∀ s, x.snapshot_id = some s → s.assignable)
    (hutf : ∀ f ∈ x.unknown_tagged_fields, 3 ≤ f.tag) :
    PartitionData.claimTags v x.mergedTrailer =
      .ok (x.diverging_epoch, x.current_leader, x.snapshot_id,
        x.unknown_tagged_fields) := by
  have hu := claimTags_unknowns v x.unknown_tagged_fields hutf
  cases hd : x.diverging_epoch with
  | none =>
      cases hc : x.current_leader with
      | none =>
          cases hs : x.snapshot_id with
          | none =>
              simp only [PartitionData.mergedTrailer,
                PartitionData.knownTagged, hd, hc, hs, List.nil_append]
              exact hu
          | some s =>
              have hps := parseFull_snapshot s v h12 (hsi s hs)
              simp [PartitionData.mergedTrailer, PartitionData.knownTagged,
                hd, hc, hs, PartitionData.claimTags, hu, hps, exceptBind_ok,
                exceptPure_eq]
      | some c =>
          cases hs : x.snapshot_id with
          | none =>
              have hpc := parseFull_leader c v h12 (hcl c hc)
              simp [PartitionData.mergedTrailer, PartitionData.knownTagged,
                hd, hc, hs, PartitionData.claimTags, hu, hpc, exceptBind_ok,
                exceptPure_eq]
          | some s =>
              have hpc := parseFull_leader c v h12 (hcl c hc)
              have hps := parseFull_snapshot s v h12 (hsi s hs)
              simp [PartitionData.mergedTrailer, PartitionData.knownTagged,
                hd, hc, hs, PartitionData.claimTags, hu, hpc, hps,
                exceptBind_ok, exceptPure_eq]
  | some e =>
      have hpe := parseFull_epoch e v h12 (hde e hd)
      cases hc : x.current_leader with
      | none =>
          cases hs : x.snapshot_id with
          | none =>
              simp [PartitionData.mergedTrailer, PartitionData.knownTagged,
                hd, hc, hs, PartitionData.claimTags, hu, hpe, exceptBind_ok,
                exceptPure_eq]
          | some s =>
              have hps := parseFull_snapshot s v h12 (hsi s hs)
              simp [PartitionData.mergedTrailer, PartitionData.knownTagged,
                hd, hc, hs, PartitionData.claimTags, hu, hpe, hps,
                exceptBind_ok, exceptPure_eq]
      | some c =>
          have hpc := parseFull_leader c v h12 (hcl c hc)
          cases hs : x.snapshot_id with
          | none =>
              simp [PartitionData.mergedTrailer, PartitionData.knownTagged,
                hd, hc, hs, PartitionData.claimTags, hu, hpe, hpc,
                exceptBind_ok, exceptPure_eq]
          | some s =>
              have hps := parseFull_snapshot s v h12 (hsi s hs)
              simp [PartitionData.mergedTrailer, PartitionData.knownTagged,
                hd, hc, hs, PartitionData.claimTags, hu, hpe, hpc, hps,
                exceptBind_ok, exceptPure_eq]

set_option maxHeartbeats 1600000 in
theorem partitionData_dec_wire (x : PartitionData) (v : Int)
    (ha : x.assignable v) (r : List Nat) :
    PartitionData.decode (x.wireBytes v ++ r) v = .ok (x, r) := by
  obtain ⟨⟨hpi1, hpi2⟩, ⟨hec1, hec2⟩, ⟨hhw1, hhw2⟩, ⟨hlso1, hlso2⟩, hlso0,
    ⟨hlgs1, hlgs2⟩, hlgs0, hab0, habl, ⟨hprr1, hprr2⟩, hprr0, hrechi, hreclo,
    hlt12, hge12⟩ := ha
  by_cases h12 : (12 : Int) ≤ v
  · have h4 : (4 : Int) ≤ v := by omega
    have h5 : (5 : Int) ≤ v := by omega
    have h11 : (11 : Int) ≤ v := by omega
    have hflag : decide (v ≥ 12) = true := decide_eq_true h12
    obtain ⟨hde, hcl, hsi, hwfu, hlen3, htags3⟩ := hge12 h12
    obtain ⟨hmn, hmasc, hmwf⟩ := mergedTrailer_wf x
      (fun e he => (hde e he).2) (fun c hc => (hcl c hc).2)
      (fun s hs => (hsi s hs).2) hwfu hlen3 htags3
    have harr : ∀ r' : List Nat,
        decNullableArray (fun b => AbortedTransaction.decode b v) true
          (encNullableArrayBytes (fun a => a.wireBytes v) true
            x.aborted_transactions ++ r') = .ok (x.aborted_transactions, r') := by
      intro r'
      cases hab : x.aborted_transactions with
      | none => exact decNullableArray_bytes_none _ _ true r'
      | some l =>
          obtain ⟨hl1, _, hl3⟩ := habl l hab
          exact decNullableArray_bytes _ _ _ true l (fun _ => hl1 h12)
            (fun hff => Bool.noConfusion hff)
            (fun a haa => ⟨abortedTransaction_encode_eq a v h4,
              fun r'' => abortedTransaction_dec_wire a v h4 (hl3 a haa) r''⟩) r'
    have hrec : ∀ r' : List Nat,
        decNullableBytes true (encNullableBytes true (some x.records) ++ r') =
          .ok (some x.records, r') :=
      fun r' => decNullableBytes_enc_some true x.records r'
        (fun _ => hrechi h12) (fun hff => Bool.noConfusion hff)
    have htf : ∀ r' : List Nat,
        decRawTaggedFieldList (encRawTaggedFieldList x.mergedTrailer ++ r') =
          .ok (x.mergedTrailer, r') :=
      fun r' => decRawTaggedFieldList_enc _ r' hmasc hmwf hmn
    have hclaim := partitionData_claimTags_merged x v h12
      (fun e he => (hde e he).1) (fun c hc => (hcl c hc).1)
      (fun s hs => (hsi s hs).1) htags3
    simp only [PartitionData.decode, PartitionData.wireBytes, ge_iff_le,
      hflag, if_pos h4, if_pos h5, if_pos h11, if_pos h12, List.append_assoc]
    rw [decInt32_enc x.partition_index _ hpi1 hpi2]
    simp only [exceptPure_eq, exceptBind_ok]
    rw [decInt16_enc x.error_code _ hec1 hec2]
    simp only [exceptPure_eq, exceptBind_ok]
    rw [decInt64_enc x.high_watermark _ hhw1 hhw2]
    simp only [exceptPure_eq, exceptBind_ok]
    rw [decInt64_enc x.last_stable_offset _ hlso1 hlso2]
    simp only [exceptPure_eq, exceptBind_ok]
    rw [decInt64_enc x.log_start_offset _ hlgs1 hlgs2]
    simp only [exceptPure_eq, exceptBind_ok]
    rw [harr]
    simp only [exceptPure_eq, exceptBind_ok]
    rw [decInt32_enc x.preferred_read_replica _ hprr1 hprr2]
    simp only [exceptPure_eq, exceptBind_ok]
    rw [hrec]
    simp only [exceptPure_eq, exceptBind_ok]
    rw [htf]
    simp only [exceptPure_eq, exceptBind_ok]
    rw [hclaim]
    simp only [exceptBind_ok, Option.getD_some, exceptPure_eq]
  · have hflag : decide (v ≥ 12) = false := decide_eq_false h12
    obtain ⟨hdnone, hcnone, hsnone, hunone⟩ := hlt12 (by omega)
    obtain ⟨pi, ec, hw, lso, lgs, de, cl, si, ab, prr, rec, utf⟩ := x
    subst hdnone
    subst hcnone
    subst hsnone
    subst hunone
    have hrec : ∀ r' : List Nat,
        decNullableBytes false (encNullableBytes false (some rec) ++ r') =
          .ok (some rec, r') :=
      fun r' => decNullableBytes_enc_some false rec r'
        (fun hff => Bool.noConfusion hff) (fun _ => hreclo (by omega))
    by_cases h4 : (4 : Int) ≤ v
    · have harr : ∀ r' : List Nat,
          decNullableArray (fun b => AbortedTransaction.decode b v) false
            (encNullableArrayBytes (fun a => a.wireBytes v) false ab ++ r') =
            .ok (ab, r') := by
        intro r'
        cases hab : ab with
        | none => exact decNullableArray_bytes_none _ _ false r'
        | some l =>
            obtain ⟨_, hl2, hl3⟩ := habl l hab
            exact decNullableArray_bytes _ _ _ false l
              (fun hff => Bool.noConfusion hff) (fun _ => hl2 (by omega))
              (fun a haa => ⟨abortedTransaction_encode_eq a v h4,
                fun r'' => abortedTransaction_dec_wire a v h4 (hl3 a haa) r''⟩) r'
      by_cases h5 : (5 : Int) ≤ v
      · by_cases h11 : (11 : Int) ≤ v
        · simp only [PartitionData.decode, PartitionData.wireBytes, ge_iff_le,
            hflag, if_pos h4, if_pos h5, if_pos h11, if_neg h12,
            List.append_assoc, List.nil_append, List.append_nil]
          rw [decInt32_enc pi _ hpi1 hpi2]
          simp only [exceptPure_eq, exceptBind_ok]
          rw [decInt16_enc ec _ hec1 hec2]
          simp only [exceptPure_eq, exceptBind_ok]
          rw [decInt64_enc hw _ hhw1 hhw2]
          simp only [exceptPure_eq, exceptBind_ok]
          rw [decInt64_enc lso _ hlso1 hlso2]
          simp only [exceptPure_eq, exceptBind_ok]
          rw [decInt64_enc lgs _ hlgs1 hlgs2]
          simp only [exceptPure_eq, exceptBind_ok]
          rw [harr]
          simp only [exceptPure_eq, exceptBind_ok]
          rw [decInt32_enc prr _ hprr1 hprr2]
          simp only [exceptPure_eq, exceptBind_ok]
          rw [hrec]
          simp only [exceptPure_eq, exceptBind_ok, Option.getD_some]
        · have hp : prr = 0 := hprr0 (by omega)
          subst hp
          simp only [PartitionData.decode, PartitionData.wireBytes, ge_iff_le,
            hflag, if_pos h4, if_pos h5, if_neg h11, if_neg h12,
            List.append_assoc, List.nil_append, List.append_nil]
          rw [decInt32_enc pi _ hpi1 hpi2]
          simp only [exceptPure_eq, exceptBind_ok]
          rw [decInt16_enc ec _ hec1 hec2]
          simp only [exceptPure_eq, exceptBind_ok]
          rw [decInt64_enc hw _ hhw1 hhw2]
          simp only [exceptPure_eq, exceptBind_ok]
          rw [decInt64_enc lso _ hlso1 hlso2]
          simp only [exceptPure_eq, exceptBind_ok]
          rw [decInt64_enc lgs _ hlgs1 hlgs2]
          simp only [exceptPure_eq, exceptBind_ok]
          rw [harr]
          simp only [exceptPure_eq, exceptBind_ok]
          rw [hrec]
          simp only [exceptPure_eq, exceptBind_ok, Option.getD_some]
      · have h11 : ¬ (11 : Int) ≤ v := by omega
        have hp : prr = 0 := hprr0 (by omega)
        subst hp
        have hl : lgs = 0 := hlgs0 (by omega)
        subst hl
        simp only [PartitionData.decode, PartitionData.wireBytes, ge_iff_le,
          hflag, if_pos h4, if_neg h5, if_neg h11, if_neg h12,
          List.append_assoc, List.nil_append, List.append_nil]
        rw [decInt32_enc pi _ hpi1 hpi2]
        simp only [exceptPure_eq, exceptBind_ok]
        rw [decInt16_enc ec _ hec1 hec2]
        simp only [exceptPure_eq, exceptBind_ok]
        rw [decInt64_enc hw _ hhw1 hhw2]
        simp only [exceptPure_eq, exceptBind_ok]
        rw [decInt64_enc lso _ hlso1 hlso2]
        simp only [exceptPure_eq, exceptBind_ok]
        rw [harr]
        simp only [exceptPure_eq, exceptBind_ok]
        rw [hrec]
        simp only [exceptPure_eq, exceptBind_ok, Option.getD_some]
    · have h5 : ¬ (5 : Int) ≤ v := by omega
      have h11 : ¬ (11 : Int) ≤ v := by omega
      have hp : prr = 0 := hprr0 (by omega)
      subst hp
      have hl : lgs = 0 := hlgs0 (by omega)
      subst hl
      have hl2 : lso = 0 := hlso0 (by omega)
      subst hl2
      have hab : ab = none := hab0 (by omega)
      subst hab
      simp only [PartitionData.decode, PartitionData.wireBytes, ge_iff_le,
        hflag, if_neg h4, if_neg h5, if_neg h11, if_neg h12,
        List.append_assoc, List.nil_append, List.append_nil]
      rw [decInt32_enc pi _ hpi1 hpi2]
      simp only [exceptPure_eq, exceptBind_ok]
      rw [decInt16_enc ec _ hec1 hec2]
      simp only [exceptPure_eq, exceptBind_ok]
      rw [decInt64_enc hw _ hhw1 hhw2]
      simp only [exceptPure_eq, exceptBind_ok]
      rw [hrec]
      simp only [exceptPure_eq, exceptBind_ok, Option.getD_some]

/-! ## FetchableTopicResponse and FetchResponse wire forms -/

/-- The bytes `FetchableTopicResponse::encode` writes at version `v`. -/
def FetchableTopicResponse.wireBytes (x : FetchableTopicResponse) (v : Int) :
    List Nat :=
  (if v ≤ 12 then encNullableString (decide (v ≥ 12)) (some x.topic) else []) ++
  (if v ≥ 13 then encUuid x.topic_id else []) ++
  encNullableArrayBytes (fun p => p.wireBytes v) (decide (v ≥ 12))
    (some x.partitions) ++
  (if v ≥ 12 then encRawTaggedFieldList x.unknown_tagged_fields else [])

/-- `FetchableTopicResponse` values assignable at version `v`. -/
def FetchableTopicResponse.assignable (x : FetchableTopicResponse) (v : Int) :
    Prop :=
  (13 ≤ v → x.topic = []) ∧
  (12 ≤ v → x.topic.length + 1 < 2 ^ 32) ∧ (v < 12 → x.topic.length < 2 ^ 15) ∧
  (v ≤ 12 → x.topic_id = 0) ∧ x.topic_id < 2 ^ 128 ∧
  (12 ≤ v → x.partitions.length + 1 < 2 ^ 32) ∧
  (v < 12 → x.partitions.length < 2 ^ 31) ∧
  (∀ p ∈ x.partitions, p.assignable v) ∧
  (v < 12 → x.unknown_tagged_fields = []) ∧
  (12 ≤ v → taggedWF x.unknown_tagged_fields)

theorem fetchableTopicResponse_encode_eq (x : FetchableTopicResponse)
    (v : Int) : x.encode v = .ok (x.wireBytes v) := by
  simp only [FetchableTopicResponse.encode]
  rw [encNullableArray_eq _ (fun p => p.wireBytes v) _ (some x.partitions)
    (fun l hl => by cases hl; exact fun p _ => partitionData_encode_eq p v)]
  simp only [exceptBind_ok, exceptPure_eq, FetchableTopicResponse.wireBytes]

/-- The bytes `FetchResponse::encode` writes at version `v`. -/
def FetchResponse.wireBytes (x : FetchResponse) (v : Int) : List Nat :=
  (if v ≥ 1 then encInt32 x.throttle_time_ms else []) ++
  (if v ≥ 7 then encInt16 x.error_code ++ encInt32 x.session_id else []) ++
  encNullableArrayBytes (fun t => t.wireBytes v) (decide (v ≥ 12))
    (some x.responses) ++
  (if v ≥ 12 then encRawTaggedFieldList x.unknown_tagged_fields else [])

/-- `FetchResponse` values assignable at version `v`. -/
def FetchResponse.assignable (x : FetchResponse) (v : Int) : Prop :=
  i32Bounds x.throttle_time_ms ∧ (v < 1 → x.throttle_time_ms = 0) ∧
  i16Bounds x.error_code ∧ i32Bounds x.session_id ∧
  (v < 7 → x.error_code = 0 ∧ x.session_id = 0) ∧
  (12 ≤ v → x.responses.length + 1 < 2 ^ 32) ∧
  (v < 12 → x.responses.length < 2 ^ 31) ∧
  (∀ t ∈ x.responses, t.assignable v) ∧
  (v < 12 → x.unknown_tagged_fields = []) ∧
  (12 ≤ v → taggedWF x.unknown_tagged_fields)

theorem fetchResponse_encode_eq (x : FetchResponse) (v : Int) :
    x.encode v = .ok (x.wireBytes v) := by
  simp only [FetchResponse.encode]
  rw [encNullableArray_eq _ (fun t => t.wireBytes v) _ (some x.responses)
    (fun l hl => by cases hl; exact fun t _ => fetchableTopicResponse_encode_eq t v)]
  simp only [exceptBind_ok, exceptPure_eq, FetchResponse.wireBytes]

set_option maxHeartbeats 1600000 in
theorem fetchableTopicResponse_dec_wire (x : FetchableTopicResponse) (v : Int)
    (ha : x.assignable v) (r : List Nat) :
    FetchableTopicResponse.decode (x.wireBytes v ++ r) v = .ok (x, r) := by
  obtain ⟨htop13, htophi, htoplo, htid12, htid, hphi, hplo, hpa, hulo, huhi⟩ := ha
  obtain ⟨topic, tid, parts, utf⟩ := x
  have hparr : ∀ (compact : Bool) (r' : List Nat),
      (compact = true → parts.length + 1 < 2 ^ 32) →
      (compact = false → parts.length < 2 ^ 31) →
      decNullableArray (fun b => PartitionData.decode b v) compact
        (encNullableArrayBytes (fun p => p.wireBytes v) compact
          (some parts) ++ r') = .ok (some parts, r') := by
    intro compact r' hc hnc
    exact decNullableArray_bytes _ _ _ compact parts hc hnc
      (fun p hp => ⟨partitionData_encode_eq p v,
        fun r'' => partitionData_dec_wire p v (hpa p hp) r''⟩) r'
  by_cases h13 : (13 : Int) ≤ v
  · have h12 : (12 : Int) ≤ v := by omega
    have hn12 : ¬ (v ≤ 12) := by omega
    have hflag : decide (v ≥ 12) = true := decide_eq_true h12
    have ht : topic = [] := htop13 h13
    subst ht
    obtain ⟨hun, huasc, huwf⟩ := huhi h12
    have htf := fun r' => decRawTaggedFieldList_enc utf r' huasc huwf hun
    simp only [FetchableTopicResponse.decode, FetchableTopicResponse.wireBytes,
      ge_iff_le, hflag, if_neg hn12, if_pos h13, if_pos h12,
      List.append_assoc, List.nil_append, List.append_nil]
    simp only [exceptPure_eq, exceptBind_ok]
    rw [decUuid_enc tid _ htid]
    simp only [exceptPure_eq, exceptBind_ok]
    rw [hparr true _ (fun _ => hphi h12) (fun hff => Bool.noConfusion hff)]
    simp only [exceptPure_eq, exceptBind_ok]
    rw [htf]
    simp only [exceptPure_eq, exceptBind_ok, Option.getD_some, Option.getD_none]
  · by_cases h12 : (12 : Int) ≤ v
    · have hle12 : v ≤ 12 := by omega
      have hflag : decide (v ≥ 12) = true := decide_eq_true h12
      have ht : tid = 0 := htid12 hle12
      subst ht
      obtain ⟨hun, huasc, huwf⟩ := huhi h12
      have htf := fun r' => decRawTaggedFieldList_enc utf r' huasc huwf hun
      have hstr : ∀ r' : List Nat,
          decNullableString true (encNullableString true (some topic) ++ r') =
            .ok (some topic, r') :=
        fun r' => decNullableString_enc_some true topic r'
          (fun _ => htophi h12) (fun hff => Bool.noConfusion hff)
      simp only [FetchableTopicResponse.decode,
        FetchableTopicResponse.wireBytes, ge_iff_le, hflag, if_pos hle12,
        if_neg h13, if_pos h12, List.append_assoc, List.nil_append,
        List.append_nil]
      rw [hstr]
      simp only [exceptPure_eq, exceptBind_ok]
      rw [hparr true _ (fun _ => hphi h12) (fun hff => Bool.noConfusion hff)]
      simp only [exceptPure_eq, exceptBind_ok]
      rw [htf]
      simp only [exceptPure_eq, exceptBind_ok, Option.getD_some]
    · have hle12 : v ≤ 12 := by omega
      have hflag : decide (v ≥ 12) = false := decide_eq_false h12
      have ht : tid = 0 := htid12 hle12
      subst ht
      have hu : utf = [] := hulo (by omega)
      subst hu
      have hstr : ∀ r' : List Nat,
          decNullableString false (encNullableString false (some topic) ++ r') =
            .ok (some topic, r') :=
        fun r' => decNullableString_enc_some false topic r'
          (fun hff => Bool.noConfusion hff) (fun _ => htoplo (by omega))
      simp only [FetchableTopicResponse.decode,
        FetchableTopicResponse.wireBytes, ge_iff_le, hflag, if_pos hle12,
        if_neg h13, if_neg h12, List.append_assoc, List.nil_append,
        List.append_nil]
      rw [hstr]
      simp only [exceptPure_eq, exceptBind_ok]
      rw [hparr false _ (fun hff => Bool.noConfusion hff)
        (fun _ => hplo (by omega))]
      simp only [exceptPure_eq, exceptBind_ok, Option.getD_some]

set_option maxHeartbeats 1600000 in
theorem fetchResponse_dec_wire (x : FetchResponse) (v : Int)
    (ha : x.assignable v) (r : List Nat) :
    FetchResponse.decode (x.wireBytes v ++ r) v = .ok (x, r) := by
  obtain ⟨⟨hth1, hth2⟩, hth0, ⟨hec1, hec2⟩, ⟨hsid1, hsid2⟩, h70, hrhi, hrlo,
    hra, hulo, huhi⟩ := ha
  obtain ⟨th, ec, sid, resp, utf⟩ := x
  have hresp : ∀ (compact : Bool) (r' : List Nat),
      (compact = true → resp.length + 1 < 2 ^ 32) →
      (compact = false → resp.length < 2 ^ 31) →
      decNullableArray (fun b => FetchableTopicResponse.decode b v) compact
        (encNullableArrayBytes (fun t => t.wireBytes v) compact
          (some resp) ++ r') = .ok (some resp, r') := by
    intro compact r' hc hnc
    exact decNullableArray_bytes _ _ _ compact resp hc hnc
      (fun t ht => ⟨fetchableTopicResponse_encode_eq t v,
        fun r'' => fetchableTopicResponse_dec_wire t v (hra t ht) r''⟩) r'
  by_cases h12 : (12 : Int) ≤ v
  · have h1 : (1 : Int) ≤ v := by omega
    have h7 : (7 : Int) ≤ v := by omega
    have hflag : decide (v ≥ 12) = true := decide_eq_true h12
    obtain ⟨hun, huasc, huwf⟩ := huhi h12
    have htf := fun r' => decRawTaggedFieldList_enc utf r' huasc huwf hun
    simp only [FetchResponse.decode, FetchResponse.wireBytes, ge_iff_le,
      hflag, if_pos h1, if_pos h7, if_pos h12, List.append_assoc,
      List.nil_append, List.append_nil]
    rw [decInt32_enc th _ hth1 hth2]
    simp only [exceptPure_eq, exceptBind_ok]
    rw [decInt16_enc ec _ hec1 hec2]
    simp only [exceptPure_eq, exceptBind_ok]
    rw [decInt32_enc sid _ hsid1 hsid2]
    simp only [exceptPure_eq, exceptBind_ok]
    rw [hresp true _ (fun _ => hrhi h12) (fun hff => Bool.noConfusion hff)]
    simp only [exceptPure_eq, exceptBind_ok]
    rw [htf]
    simp only [exceptPure_eq, exceptBind_ok, Option.getD_some]
  · have hflag : decide (v ≥ 12) = false := decide_eq_false h12
    have hu : utf = [] := hulo (by omega)
    subst hu
    by_cases h7 : (7 : Int) ≤ v
    · have h1 : (1 : Int) ≤ v := by omega
      simp only [FetchResponse.decode, FetchResponse.wireBytes, ge_iff_le,
        hflag, if_pos h1, if_pos h7, if_neg h12, List.append_assoc,
        List.nil_append, List.append_nil]
      rw [decInt32_enc th _ hth1 hth2]
      simp only [exceptPure_eq, exceptBind_ok]
      rw [decInt16_enc ec _ hec1 hec2]
      simp only [exceptPure_eq, exceptBind_ok]
      rw [decInt32_enc sid _ hsid1 hsid2]
      simp only [exceptPure_eq, exceptBind_ok]
      rw [hresp false _ (fun hff => Bool.noConfusion hff)
        (fun _ => hrlo (by omega))]
      simp only [exceptPure_eq, exceptBind_ok, Option.getD_some]
    · obtain ⟨he0, hs0⟩ := h70 (by omega)
      subst he0
      subst hs0
      by_cases h1 : (1 : Int) ≤ v
      · simp only [FetchResponse.decode, FetchResponse.wireBytes, ge_iff_le,
          hflag, if_pos h1, if_neg h7, if_neg h12, List.append_assoc,
          List.nil_append, List.append_nil]
        rw [decInt32_enc th _ hth1 hth2]
        simp only [exceptPure_eq, exceptBind_ok]
        rw [hresp false _ (fun hff => Bool.noConfusion hff)
          (fun _ => hrlo (by omega))]
        simp only [exceptPure_eq, exceptBind_ok, Option.getD_some]
      · have hth : th = 0 := hth0 (by omega)
        subst hth
        simp only [FetchResponse.decode, FetchResponse.wireBytes, ge_iff_le,
          hflag, if_neg h1, if_neg h7, if_neg h12, List.append_assoc,
          List.nil_append, List.append_nil]
        simp only [exceptPure_eq, exceptBind_ok]
        rw [hresp false _ (fun hff => Bool.noConfusion hff)
          (fun _ => hrlo (by omega))]
        simp only [exceptPure_eq, exceptBind_ok, Option.getD_some]

/-! ## Request-side round trips -/

/-- `RequestHeader` values assignable at header version `v`. -/
def RequestHeader.assignable (x : RequestHeader) (v : Int) : Prop :=
  i16Bounds x.request_api_key ∧ i16Bounds x.request_api_version ∧
  i32Bounds x.correlation_id ∧
  (v < 1 → x.client_id = []) ∧ x.client_id.length < 2 ^ 15 ∧
  (v < 2 → x.unknown_tagged_fields = []) ∧
  (2 ≤ v → taggedWF x.unknown_tagged_fields)

theorem requestHeader_dec_enc (x : RequestHeader) (v : Int)
    (ha : x.assignable v) (r : List Nat) :
    RequestHeader.decode (x.encode v ++ r) v = .ok (x, r) := by
  obtain ⟨⟨hk1, hk2⟩, ⟨ha1, ha2⟩, ⟨hc1, hc2⟩, hcid0, hcid, hulo, huhi⟩ := ha
  obtain ⟨k, a, c, cid, utf⟩ := x
  have hstr : ∀ r' : List Nat,
      decNullableString false (encNullableString false (some cid) ++ r') =
        .ok (some cid, r') :=
    fun r' => decNullableString_enc_some false cid r'
      (fun hff => Bool.noConfusion hff) (fun _ => hcid)
  by_cases h2 : (2 : Int) ≤ v
  · have h1 : (1 : Int) ≤ v := by omega
    obtain ⟨hun, huasc, huwf⟩ := huhi h2
    have htf := fun r' => decRawTaggedFieldList_enc utf r' huasc huwf hun
    simp only [RequestHeader.decode, RequestHeader.encode, ge_iff_le,
      if_pos h1, if_pos h2, List.append_assoc, List.nil_append,
      List.append_nil]
    rw [decInt16_enc k _ hk1 hk2]
    simp only [exceptPure_eq, exceptBind_ok]
    rw [decInt16_enc a _ ha1 ha2]
    simp only [exceptPure_eq, exceptBind_ok]
    rw [decInt32_enc c _ hc1 hc2]
    simp only [exceptPure_eq, exceptBind_ok]
    rw [hstr]
    simp only [exceptPure_eq, exceptBind_ok]
    rw [htf]
    simp only [exceptPure_eq, exceptBind_ok, Option.getD_some]
  · have hu : utf = [] := hulo (by omega)
    subst hu
    by_cases h1 : (1 : Int) ≤ v
    · simp only [RequestHeader.decode, RequestHeader.encode, ge_iff_le,
        if_pos h1, if_neg h2, List.append_assoc, List.nil_append,
        List.append_nil]
      rw [decInt16_enc k _ hk1 hk2]
      simp only [exceptPure_eq, exceptBind_ok]
      rw [decInt16_enc a _ ha1 ha2]
      simp only [exceptPure_eq, exceptBind_ok]
      rw [decInt32_enc c _ hc1 hc2]
      simp only [exceptPure_eq, exceptBind_ok]
      rw [hstr]
      simp only [exceptPure_eq, exceptBind_ok, Option.getD_some]
    · have hcid : cid = [] := hcid0 (by omega)
      subst hcid
      simp only [RequestHeader.decode, RequestHeader.encode, ge_iff_le,
        if_neg h1, if_neg h2, List.append_assoc, List.nil_append,
        List.append_nil]
      rw [decInt16_enc k _ hk1 hk2]
      simp only [exceptPure_eq, exceptBind_ok]
      rw [decInt16_enc a _ ha1 ha2]
      simp only [exceptPure_eq, exceptBind_ok]
      rw [decInt32_enc c _ hc1 hc2]
      simp only [exceptPure_eq, exceptBind_ok]

/-- `ApiVersionsRequest` values assignable at version `v`. -/
def ApiVersionsRequest.assignable (x : ApiVersionsRequest) (v : Int) : Prop :=
  (v < 3 → x.client_software_name = [] ∧ x.client_software_version = [] ∧
    x.unknown_tagged_fields = []) ∧
  x.client_software_name.length + 1 < 2 ^ 32 ∧
  x.client_software_version.length + 1 < 2 ^ 32 ∧
  (3 ≤ v → taggedWF x.unknown_tagged_fields)

theorem apiVersionsRequest_dec_enc (x : ApiVersionsRequest) (v : Int)
    (ha : x.assignable v) (r : List Nat) :
    ApiVersionsRequest.decode (x.encode v ++ r) v = .ok (x, r) := by
  obtain ⟨hlo, hn, hv, hhi⟩ := ha
  obtain ⟨nm, vs, utf⟩ := x
  by_cases h3 : (3 : Int) ≤ v
  · obtain ⟨hun, huasc, huwf⟩ := hhi h3
    have htf := fun r' => decRawTaggedFieldList_enc utf r' huasc huwf hun
    have hs1 : ∀ r' : List Nat,
        decNullableString true (encNullableString true (some nm) ++ r') =
          .ok (some nm, r') :=
      fun r' => decNullableString_enc_some true nm r' (fun _ => hn)
        (fun hff => Bool.noConfusion hff)
    have hs2 : ∀ r' : List Nat,
        decNullableString true (encNullableString true (some vs) ++ r') =
          .ok (some vs, r') :=
      fun r' => decNullableString_enc_some true vs r' (fun _ => hv)
        (fun hff => Bool.noConfusion hff)
    simp only [ApiVersionsRequest.decode, ApiVersionsRequest.encode,
      ge_iff_le, if_pos h3, List.append_assoc, List.nil_append,
      List.append_nil]
    rw [hs1]
    simp only [exceptPure_eq, exceptBind_ok]
    rw [hs2]
    simp only [exceptPure_eq, exceptBind_ok]
    rw [htf]
    simp only [exceptPure_eq, exceptBind_ok]
  · obtain ⟨hn0, hv0, hu0⟩ := hlo (by omega)
    subst hn0
    subst hv0
    subst hu0
    simp only [ApiVersionsRequest.decode, ApiVersionsRequest.encode,
      ge_iff_le, if_neg h3, List.nil_append]
    rfl

/-- `HeartbeatRequest` values assignable at version `v`. -/
def HeartbeatRequest.assignable (x : HeartbeatRequest) (v : Int) : Prop :=
  (4 ≤ v → x.group_id.length + 1 < 2 ^ 32) ∧
  (v < 4 → x.group_id.length < 2 ^ 15) ∧
  i32Bounds x.generation_id ∧
  (4 ≤ v → x.member_id.length + 1 < 2 ^ 32) ∧
  (v < 4 → x.member_id.length < 2 ^ 15) ∧
  (v < 3 → x.group_instance_id = none) ∧
  (∀ s, x.group_instance_id = some s →
    (4 ≤ v → s.length + 1 < 2 ^ 32) ∧ (v < 4 → s.length < 2 ^ 15)) ∧
  (v < 4 → x.unknown_tagged_fields = []) ∧
  (4 ≤ v → taggedWF x.unknown_tagged_fields)

theorem heartbeatRequest_dec_enc (x : HeartbeatRequest) (v : Int)
    (ha : x.assignable v) (r : List Nat) :
    HeartbeatRequest.read (HeartbeatRequest.write x v ++ r) v = .ok (x, r) := by
  obtain ⟨hghi, hglo, ⟨hgen1, hgen2⟩, hmhi, hmlo, hinst0, hinstb, hulo, huhi⟩ := ha
  obtain ⟨g, gen, m, inst, utf⟩ := x
  by_cases h4 : (4 : Int) ≤ v
  · have h3 : (3 : Int) ≤ v := by omega
    have hflag : decide (v ≥ 4) = true := decide_eq_true h4
    obtain ⟨hun, huasc, huwf⟩ := huhi h4
    have htf := fun r' => decRawTaggedFieldList_enc utf r' huasc huwf hun
    have hsg : ∀ r' : List Nat,
        decNullableString true (encNullableString true (some g) ++ r') =
          .ok (some g, r') :=
      fun r' => decNullableString_enc_some true g r' (fun _ => hghi h4)
        (fun hff => Bool.noConfusion hff)
    have hsm : ∀ r' : List Nat,
        decNullableString true (encNullableString true (some m) ++ r') =
          .ok (some m, r') :=
      fun r' => decNullableString_enc_some true m r' (fun _ => hmhi h4)
        (fun hff => Bool.noConfusion hff)
    have hsi : ∀ r' : List Nat,
        decNullableString true (encNullableString true inst ++ r') =
          .ok (inst, r') := by
      intro r'
      cases hi : inst with
      | none => exact decNullableString_enc_none true r'
      | some s =>
          exact decNullableString_enc_some true s r'
            (fun _ => (hinstb s hi).1 h4) (fun hff => Bool.noConfusion hff)
    simp only [HeartbeatRequest.read, HeartbeatRequest.write, ge_iff_le,
      hflag, if_pos h3, if_pos h4, List.append_assoc, List.nil_append,
      List.append_nil]
    rw [hsg]
    simp only [exceptPure_eq, exceptBind_ok]
    rw [decInt32_enc gen _ hgen1 hgen2]
    simp only [exceptPure_eq, exceptBind_ok]
    rw [hsm]
    simp only [exceptPure_eq, exceptBind_ok]
    rw [hsi]
    simp only [exceptPure_eq, exceptBind_ok]
    rw [htf]
    simp only [exceptPure_eq, exceptBind_ok]
  · have hflag : decide (v ≥ 4) = false := decide_eq_false h4
    have hu : utf = [] := hulo (by omega)
    subst hu
    have hsg : ∀ r' : List Nat,
        decNullableString false (encNullableString false (some g) ++ r') =
          .ok (some g, r') :=
      fun r' => decNullableString_enc_some false g r'
        (fun hff => Bool.noConfusion hff) (fun _ => hglo (by omega))
    have hsm : ∀ r' : List Nat,
        decNullableString false (encNullableString false (some m) ++ r') =
          .ok (some m, r') :=
      fun r' => decNullableString_enc_some false m r'
        (fun hff => Bool.noConfusion hff) (fun _ => hmlo (by omega))
    by_cases h3 : (3 : Int) ≤ v
    · have hsi : ∀ r' : List Nat,
          decNullableString false (encNullableString false inst ++ r') =
            .ok (inst, r') := by
        intro r'
        cases hi : inst with
        | none => exact decNullableString_enc_none false r'
        | some s =>
            exact decNullableString_enc_some false s r'
              (fun hff => Bool.noConfusion hff)
              (fun _ => (hinstb s hi).2 (by omega))
      simp only [HeartbeatRequest.read, HeartbeatRequest.write, ge_iff_le,
        hflag, if_pos h3, if_neg h4, List.append_assoc, List.nil_append,
        List.append_nil]
      rw [hsg]
      simp only [exceptPure_eq, exceptBind_ok]
      rw [decInt32_enc gen _ hgen1 hgen2]
      simp only [exceptPure_eq, exceptBind_ok]
      rw [hsm]
      simp only [exceptPure_eq, exceptBind_ok]
      rw [hsi]
      simp only [exceptPure_eq, exceptBind_ok]
    · have hi0 : inst = none := hinst0 (by omega)
      subst hi0
      simp only [HeartbeatRequest.read, HeartbeatRequest.write, ge_iff_le,
        hflag, if_neg h3, if_neg h4, List.append_assoc, List.nil_append,
        List.append_nil]
      rw [hsg]
      simp only [exceptPure_eq, exceptBind_ok]
      rw [decInt32_enc gen _ hgen1 hgen2]
      simp only [exceptPure_eq, exceptBind_ok]
      rw [hsm]
      simp only [exceptPure_eq, exceptBind_ok]

/-! ## Claims -/

/-- Claim C4: encoding a `FetchResponse` at version 12 with zero throttle,
error code and session id, empty responses and empty trailer produces
exactly the twelve bytes 00 00 00 00 00 00 00 00 00 00 01 00: four throttle
bytes, two error-code bytes, four session-id bytes, the compact empty array
byte 01 and the tagged-trailer count byte 00. -/
theorem claim_C4 :
    FetchResponse.encode
      { throttle_time_ms := 0, error_code := 0, session_id := 0,
        responses := [], unknown_tagged_fields := [] } 12 =
      .ok [0, 0, 0, 0, 0, 0, 0, 0, 0, 0, 1, 0] := rfl

/-- Claim C8: the `Default` values of `EpochEndOffset`, `LeaderIdAndEpoch`
and `SnapshotId` set every integer field to −1 (not 0) and the unknown
tagged fields to the empty list. -/
theorem claim_C8 :
    EpochEndOffset.default.epoch = -1 ∧
    EpochEndOffset.default.end_offset = -1 ∧
    EpochEndOffset.default.unknown_tagged_fields = [] ∧
    LeaderIdAndEpoch.default.leader_id = -1 ∧
    LeaderIdAndEpoch.default.leader_epoch = -1 ∧
    LeaderIdAndEpoch.default.unknown_tagged_fields = [] ∧
    SnapshotId.default.end_offset = -1 ∧
    SnapshotId.default.epoch = -1 ∧
    SnapshotId.default.unknown_tagged_fields = [] ∧
    (-1 : Int) ≠ 0 :=
  ⟨rfl, rfl, rfl, rfl, rfl, rfl, rfl, rfl, rfl, by decide⟩

/-- Claim C7: encoding any of the version-guarded child structs outside its
supported range raises `Unsupported` (carrying the version and struct name)
and leaves the output buffer untouched: `AbortedTransaction::encode` below
version 4, and `EpochEndOffset::encode`, `LeaderIdAndEpoch::encode`,
`SnapshotId::encode` below version 12. -/
theorem claim_C7 :
    (∀ (x : AbortedTransaction) (v : Int) (buf : List Nat), v < 4 →
      encodeOnto (x.encode v) buf =
        (.error (.unsupported v "AbortedTransaction"), buf)) ∧
    (∀ (x : EpochEndOffset) (v : Int) (buf : List Nat), v < 12 →
      encodeOnto (x.encode v) buf =
        (.error (.unsupported v "EpochEndOffset"), buf)) ∧
    (∀ (x : LeaderIdAndEpoch) (v : Int) (buf : List Nat), v < 12 →
      encodeOnto (x.encode v) buf =
        (.error (.unsupported v "LeaderIdAndEpoch"), buf)) ∧
    (∀ (x : SnapshotId) (v : Int) (buf : List Nat), v < 12 →
      encodeOnto (x.encode v) buf =
        (.error (.unsupported v "SnapshotId"), buf)) := by
  refine ⟨?_, ?_, ?_, ?_⟩ <;> intro x v buf h <;>
    simp [AbortedTransaction.encode, EpochEndOffset.encode,
      LeaderIdAndEpoch.encode, SnapshotId.encode, encodeOnto, if_pos h]

/-- Witness for C7 at concrete inputs: version 3 for `AbortedTransaction`
and version 11 for the three flexible-only structs, on a non-empty buffer. -/
theorem claim_C7_witness :
    encodeOnto (AbortedTransaction.encode AbortedTransaction.default 3) [7] =
      (.error (.unsupported 3 "AbortedTransaction"), [7]) ∧
    encodeOnto (EpochEndOffset.encode EpochEndOffset.default 11) [7] =
      (.error (.unsupported 11 "EpochEndOffset"), [7]) ∧
    encodeOnto (LeaderIdAndEpoch.encode LeaderIdAndEpoch.default 11) [7] =
      (.error (.unsupported 11 "LeaderIdAndEpoch"), [7]) ∧
    encodeOnto (SnapshotId.encode SnapshotId.default 11) [7] =
      (.error (.unsupported 11 "SnapshotId"), [7]) :=
  ⟨claim_C7.1 _ 3 [7] (by norm_num), claim_C7.2.1 _ 11 [7] (by norm_num),
   claim_C7.2.2.1 _ 11 [7] (by norm_num), claim_C7.2.2.2 _ 11 [7] (by norm_num)⟩

/-- Claim C1 counterexample: `PartitionData::encode` at version 12 emits the
combined tagged list exactly as built — known sub-records under tags 0/1/2 in
push order followed by the stored unknown tagged fields — with no sort and no
duplicate check.  With `snapshot_id` set and an unknown field under tag 0 the
emitted trailer carries the tags in the order [2, 0], not ascending; with
`diverging_epoch` set and an unknown field under tag 0 the encoder succeeds
and emits the duplicate tag 0 twice instead of rejecting it. -/
theorem claim_C1_counterexample :
    PartitionData.mergedTrailer
      { PartitionData.default with
        snapshot_id := some SnapshotId.default,
        unknown_tagged_fields := [RawTaggedField.mk 0 []] } =
      [RawTaggedField.mk 2 SnapshotId.default.wireBytes,
       RawTaggedField.mk 0 []] ∧
    tagsAscending [RawTaggedField.mk 2 SnapshotId.default.wireBytes,
      RawTaggedField.mk 0 []] = false ∧
    PartitionData.encode
      { PartitionData.default with
        snapshot_id := some SnapshotId.default,
        unknown_tagged_fields := [RawTaggedField.mk 0 []] } 12 =
      .ok [0, 0, 0, 0, 0, 0, 0, 0, 0, 0, 0, 0, 0, 0, 0, 0, 0, 0, 0, 0, 0, 0,
        0, 0, 0, 0, 0, 0, 0, 0, 0, 0, 0, 0, 0, 1,
        2, 2, 13, 255, 255, 255, 255, 255, 255, 255, 255, 255, 255, 255, 255,
        0, 0, 0] ∧
    PartitionData.mergedTrailer
      { PartitionData.default with
        diverging_epoch := some EpochEndOffset.default,
        unknown_tagged_fields := [RawTaggedField.mk 0 []] } =
      [RawTaggedField.mk 0 EpochEndOffset.default.wireBytes,
       RawTaggedField.mk 0 []] ∧
    PartitionData.encode
      { PartitionData.default with
        diverging_epoch := some EpochEndOffset.default,
        unknown_tagged_fields := [RawTaggedField.mk 0 []] } 12 =
      .ok [0, 0, 0, 0, 0, 0, 0, 0, 0, 0, 0, 0, 0, 0, 0, 0, 0, 0, 0, 0, 0, 0,
        0, 0, 0, 0, 0, 0, 0, 0, 0, 0, 0, 0, 0, 1,
        2, 0, 13, 255, 255, 255, 255, 255, 255, 255, 255, 255, 255, 255, 255,
        0, 0, 0] :=
  ⟨rfl, rfl, rfl, rfl, rfl⟩

/-- Claim C1 (amended): at every flexible version the trailer
`PartitionData::encode` hands to `RawTaggedFieldList.encode` is exactly the
known optional sub-records pushed in fixed tag order 0/1/2 followed by
`unknown_tagged_fields` unchanged; no sorting is applied and no duplicate tag
is rejected, so the emission is ascending-tag-ordered exactly when the
unknown tags themselves are strictly ascending above the present known tags. -/
theorem claim_C1_amended : ∀ (x : PartitionData) (v : Int), 12 ≤ v →
    x.mergedTrailer = x.knownTagged ++ x.unknown_tagged_fields ∧
    x.encode v = .ok (
      encInt32 x.partition_index ++ encInt16 x.error_code ++
      encInt64 x.high_watermark ++ encInt64 x.last_stable_offset ++
      encInt64 x.log_start_offset ++
      encNullableArrayBytes (fun a => a.wireBytes v) true
        x.aborted_transactions ++
      encInt32 x.preferred_read_replica ++
      encNullableBytes true (some x.records) ++
      encRawTaggedFieldList x.mergedTrailer) := by
  intro x v h12
  refine ⟨rfl, ?_⟩
  rw [partitionData_encode_eq]
  simp only [PartitionData.wireBytes, ge_iff_le, decide_eq_true h12,
    if_pos (by omega : (4 : Int) ≤ v), if_pos (by omega : (5 : Int) ≤ v),
    if_pos (by omega : (11 : Int) ≤ v), if_pos h12]

/-- Witness for the amended C1 at version 12 with `current_leader` set and
one unknown tagged field under tag 7. -/
theorem claim_C1_witness :
    PartitionData.encode
      { PartitionData.default with
        current_leader := some LeaderIdAndEpoch.default,
        unknown_tagged_fields := [RawTaggedField.mk 7 [9]] } 12 =
      .ok [0, 0, 0, 0, 0, 0, 0, 0, 0, 0, 0, 0, 0, 0, 0, 0, 0, 0, 0, 0, 0, 0,
        0, 0, 0, 0, 0, 0, 0, 0, 0, 0, 0, 0, 0, 1,
        2, 1, 9, 255, 255, 255, 255, 255, 255, 255, 255, 0, 7, 1, 9] := by
  rw [(claim_C1_amended
    { PartitionData.default with
      current_leader := some LeaderIdAndEpoch.default,
      unknown_tagged_fields := [RawTaggedField.mk 7 [9]] } 12
    (by norm_num)).2]
  rfl

/-- Claim C2 counterexample: `FetchResponse::encode` at version 0 with a
non-zero `error_code` and `session_id` succeeds (writing only the classic
empty array length), and `FetchableTopicResponse::encode` at version 13 with
a non-empty topic succeeds writing no inline topic bytes (only the zero
topic id, the compact empty partitions array and the empty trailer); neither
raises `Unsupported`. -/
theorem claim_C2_counterexample :
    FetchResponse.encode
      { throttle_time_ms := 0, error_code := 1, session_id := 1,
        responses := [], unknown_tagged_fields := [] } 0 = .ok [0, 0, 0, 0] ∧
    FetchableTopicResponse.encode
      { topic := [97], topic_id := 0, partitions := [],
        unknown_tagged_fields := [] } 13 =
      .ok [0, 0, 0, 0, 0, 0, 0, 0, 0, 0, 0, 0, 0, 0, 0, 0, 1, 0] :=
  ⟨rfl, rfl⟩

/-- Claim C2 (amended): encode never checks fields outside their presence
window — they are silently omitted whatever their value: below version 7 the
output of `FetchResponse::encode` is independent of `error_code` and
`session_id` (and the encode succeeds for every value), and from version 13
the output of `FetchableTopicResponse::encode` is independent of `topic`. -/
theorem claim_C2_amended :
    (∀ (x : FetchResponse) (v ec sid : Int), v < 7 →
      FetchResponse.encode
        { x with error_code := ec, session_id := sid } v =
        FetchResponse.encode x v) ∧
    (∀ (x : FetchableTopicResponse) (v : Int) (t : List Nat), 13 ≤ v →
      FetchableTopicResponse.encode { x with topic := t } v =
        FetchableTopicResponse.encode { x with topic := [] } v) ∧
    (∀ (x : FetchResponse) (v : Int), ∃ bs,
      FetchResponse.encode x v = .ok bs) := by
  refine ⟨?_, ?_, fun x v => ⟨_, fetchResponse_encode_eq x v⟩⟩
  · intro x v ec sid h
    simp only [FetchResponse.encode, ge_iff_le, if_neg (not_le.mpr h)]
  · intro x v t h
    simp only [FetchableTopicResponse.encode,
      if_neg (by omega : ¬ v ≤ (12 : Int))]

/-- Witness for the amended C2 at version 0 (error code 5, session id 6) and
version 13 (topic "a"). -/
theorem claim_C2_witness :
    FetchResponse.encode
      { FetchResponse.default with error_code := 5, session_id := 6 } 0 =
      FetchResponse.encode FetchResponse.default 0 ∧
    FetchableTopicResponse.encode
      { FetchableTopicResponse.default with topic := [97] } 13 =
      FetchableTopicResponse.encode FetchableTopicResponse.default 13 :=
  ⟨claim_C2_amended.1 FetchResponse.default 0 5 6 (by norm_num),
   claim_C2_amended.2.1 FetchableTopicResponse.default 13 [97] (by norm_num)⟩

/-- Claim C10 counterexample: `AbortedTransaction::encode` at version 3 with
a non-empty unknown tagged field list does not succeed — it raises
`Unsupported` on its version guard, so the claim does not hold for every
version below 12. -/
theorem claim_C10_counterexample :
    AbortedTransaction.encode
      { producer_id := 0, first_offset := 0,
        unknown_tagged_fields := [RawTaggedField.mk 0 []] } 3 =
      .error (.unsupported 3 "AbortedTransaction") := rfl

/-- Claim C10 (amended): below version 12 no tagged-field trailer is written
and the stored unknown tagged fields are silently dropped: the output of
`FetchResponse::encode` is independent of `unknown_tagged_fields` (and the
encode succeeds), and `AbortedTransaction::encode` succeeds for 4 ≤ v < 12
writing exactly the two inline `i64` fields — below version 4 it instead
fails `Unsupported`. -/
theorem claim_C10_amended :
    (∀ (x : FetchResponse) (v : Int), v < 12 →
      FetchResponse.encode x v =
        FetchResponse.encode { x with unknown_tagged_fields := [] } v ∧
      ∃ bs, FetchResponse.encode x v = .ok bs) ∧
    (∀ (x : AbortedTransaction) (v : Int), 4 ≤ v → v < 12 →
      x.encode v = .ok (encInt64 x.producer_id ++ encInt64 x.first_offset)) := by
  constructor
  · intro x v h
    refine ⟨?_, ⟨_, fetchResponse_encode_eq x v⟩⟩
    simp only [FetchResponse.encode, ge_iff_le, if_neg (not_le.mpr h)]
  · intro x v h4 h12
    rw [abortedTransaction_encode_eq x v h4]
    simp only [AbortedTransaction.wireBytes, ge_iff_le,
      if_neg (not_le.mpr h12), List.append_nil]

/-- Witness for the amended C10 at version 5 with a non-empty unknown
tagged field list. -/
theorem claim_C10_witness :
    FetchResponse.encode
      { FetchResponse.default with
        unknown_tagged_fields := [RawTaggedField.mk 1 [2]] } 5 =
      FetchResponse.encode FetchResponse.default 5 ∧
    AbortedTransaction.encode
      { producer_id := 1, first_offset := 2,
        unknown_tagged_fields := [RawTaggedField.mk 1 [2]] } 5 =
      .ok (encInt64 1 ++ encInt64 2) :=
  ⟨(claim_C10_amended.1
      { FetchResponse.default with
        unknown_tagged_fields := [RawTaggedField.mk 1 [2]] } 5
      (by norm_num)).1,
   claim_C10_amended.2
     { producer_id := 1, first_offset := 2,
       unknown_tagged_fields := [RawTaggedField.mk 1 [2]] } 5
     (by norm_num) (by norm_num)⟩

/-- Decomposition of `RequestHeader.decode` below header version 1: only the
three fixed fields are read. -/
theorem requestHeader_decode_v0 (v k a c : Int) (rest : List Nat)
    (hk1 : -(2 ^ 15) ≤ k) (hk2 : k < 2 ^ 15)
    (ha1 : -(2 ^ 15) ≤ a) (ha2 : a < 2 ^ 15)
    (hc1 : -(2 ^ 31) ≤ c) (hc2 : c < 2 ^ 31) (h1 : v < 1) :
    RequestHeader.decode
        (encInt16 k ++ encInt16 a ++ encInt32 c ++ rest) v =
      .ok ({ request_api_key := k, request_api_version := a,
             correlation_id := c, client_id := [],
             unknown_tagged_fields := [] }, rest) := by
  simp only [RequestHeader.decode, ge_iff_le, List.append_assoc,
    if_neg (by omega : ¬ (1 : Int) ≤ v),
    if_neg (by omega : ¬ (2 : Int) ≤ v)]
  rw [decInt16_enc k _ hk1 hk2]
  simp only [exceptPure_eq, exceptBind_ok]
  rw [decInt16_enc a _ ha1 ha2]
  simp only [exceptPure_eq, exceptBind_ok]
  rw [decInt32_enc c _ hc1 hc2]
  simp only [exceptPure_eq, exceptBind_ok]

/-- Decomposition of `RequestHeader.decode` at header version 1: the fixed
fields, then the classic nullable client id, no trailer. -/
theorem requestHeader_decode_mid (v k a c : Int) (rest : List Nat)
    (hk1 : -(2 ^ 15) ≤ k) (hk2 : k < 2 ^ 15)
    (ha1 : -(2 ^ 15) ≤ a) (ha2 : a < 2 ^ 15)
    (hc1 : -(2 ^ 31) ≤ c) (hc2 : c < 2 ^ 31) (h1 : 1 ≤ v) (h2 : v < 2) :
    RequestHeader.decode
        (encInt16 k ++ encInt16 a ++ encInt32 c ++ rest) v =
      (decNullableString false rest).bind (fun p =>
        .ok ({ request_api_key := k, request_api_version := a,
               correlation_id := c, client_id := p.1.getD [],
               unknown_tagged_fields := [] }, p.2)) := by
  simp only [RequestHeader.decode, ge_iff_le, List.append_assoc,
    if_pos h1, if_neg (by omega : ¬ (2 : Int) ≤ v)]
  rw [decInt16_enc k _ hk1 hk2]
  simp only [exceptPure_eq, exceptBind_ok]
  rw [decInt16_enc a _ ha1 ha2]
  simp only [exceptPure_eq, exceptBind_ok]
  rw [decInt32_enc c _ hc1 hc2]
  simp only [exceptPure_eq, exceptBind_ok]
  cases hres : decNullableString false rest with
  | error e => simp only [hres, bind, Except.bind]
  | ok p =>
      obtain ⟨cid, b4⟩ := p
      simp only [hres, bind, Except.bind]

/-- Decomposition of `RequestHeader.decode` from header version 2: the fixed
fields, the classic nullable client id, then the tagged trailer. -/
theorem requestHeader_decode_flex (v k a c : Int) (rest : List Nat)
    (hk1 : -(2 ^ 15) ≤ k) (hk2 : k < 2 ^ 15)
    (ha1 : -(2 ^ 15) ≤ a) (ha2 : a < 2 ^ 15)
    (hc1 : -(2 ^ 31) ≤ c) (hc2 : c < 2 ^ 31) (h2 : 2 ≤ v) :
    RequestHeader.decode
        (encInt16 k ++ encInt16 a ++ encInt32 c ++ rest) v =
      (decNullableString false rest).bind (fun p =>
        (decRawTaggedFieldList p.2).bind (fun q =>
          .ok ({ request_api_key := k, request_api_version := a,
                 correlation_id := c, client_id := p.1.getD [],
                 unknown_tagged_fields := q.1 }, q.2))) := by
  simp only [RequestHeader.decode, ge_iff_le, List.append_assoc,
    if_pos (by omega : (1 : Int) ≤ v), if_pos h2]
  rw [decInt16_enc k _ hk1 hk2]
  simp only [exceptPure_eq, exceptBind_ok]
  rw [decInt16_enc a _ ha1 ha2]
  simp only [exceptPure_eq, exceptBind_ok]
  rw [decInt32_enc c _ hc1 hc2]
  simp only [exceptPure_eq, exceptBind_ok]
  cases hres : decNullableString false rest with
  | error e => simp only [hres, bind, Except.bind]
  | ok p =>
      obtain ⟨cid, b4⟩ := p
      simp only [hres, bind, Except.bind]

/-- Claim C5: for every input buffer, `RequestHeader::decode` reads the api
key, api version and correlation id unconditionally; it reads `client_id`
only from header version 1, always in the classic (non-compact)
nullable-string form — a signed 16-bit length prefix — even at header
version 2; and it reads a tagged-field trailer only from header version 2. -/
theorem claim_C5 : ∀ (v k a c : Int) (rest : List Nat),
    i16Bounds k → i16Bounds a → i32Bounds c →
    (v < 1 → RequestHeader.decode
        (encInt16 k ++ encInt16 a ++ encInt32 c ++ rest) v =
      .ok ({ request_api_key := k, request_api_version := a,
             correlation_id := c, client_id := [],
             unknown_tagged_fields := [] }, rest)) ∧
    (v = 1 → RequestHeader.decode
        (encInt16 k ++ encInt16 a ++ encInt32 c ++ rest) v =
      (decNullableString false rest).bind (fun p =>
        .ok ({ request_api_key := k, request_api_version := a,
               correlation_id := c, client_id := p.1.getD [],
               unknown_tagged_fields := [] }, p.2))) ∧
    (2 ≤ v → RequestHeader.decode
        (encInt16 k ++ encInt16 a ++ encInt32 c ++ rest) v =
      (decNullableString false rest).bind (fun p =>
        (decRawTaggedFieldList p.2).bind (fun q =>
          .ok ({ request_api_key := k, request_api_version := a,
                 correlation_id := c, client_id := p.1.getD [],
                 unknown_tagged_fields := q.1 }, q.2)))) := by
  intro v k a c rest hk ha hc
  obtain ⟨hk1, hk2⟩ := hk
  obtain ⟨ha1, ha2⟩ := ha
  obtain ⟨hc1, hc2⟩ := hc
  refine ⟨?_, ?_, ?_⟩
  · intro h1
    exact requestHeader_decode_v0 v k a c rest hk1 hk2 ha1 ha2 hc1 hc2 h1
  · intro h1
    subst h1
    exact requestHeader_decode_mid 1 k a c rest hk1 hk2 ha1 ha2 hc1 hc2
      (by norm_num) (by norm_num)
  · intro h2
    exact requestHeader_decode_flex v k a c rest hk1 hk2 ha1 ha2 hc1 hc2 h2

/-- Witness for C5 at header version 2 with api key 18, api version 3,
correlation id 7 and a buffer carrying a null client id and an empty
trailer. -/
theorem claim_C5_witness :
    RequestHeader.decode
      (encInt16 18 ++ encInt16 3 ++ encInt32 7 ++ [255, 255, 0]) 2 =
      (decNullableString false [255, 255, 0]).bind (fun p =>
        (decRawTaggedFieldList p.2).bind (fun q =>
          .ok ({ request_api_key := 18, request_api_version := 3,
                 correlation_id := 7, client_id := p.1.getD [],
                 unknown_tagged_fields := q.1 }, q.2))) :=
  (claim_C5 2 18 3 7 [255, 255, 0]
    (by constructor <;> norm_num) (by constructor <;> norm_num)
    (by constructor <;> norm_num)).2.2 (by norm_num)

/-- Claim C9: `RequestHeader::decode` never raises `UnexpectedNull` for the
client id: from header version 1 a null client id decodes to the empty
string (so a decoded header cannot distinguish a null client id from an
empty one), and below version 1 the client id stays empty without any
client-id bytes being consumed. -/
theorem claim_C9 : ∀ (v k a c : Int) (rest : List Nat),
    i16Bounds k → i16Bounds a → i32Bounds c →
    (encNullableString false none = [255, 255]) ∧
    (1 ≤ v → v < 2 → RequestHeader.decode
        (encInt16 k ++ encInt16 a ++ encInt32 c ++
          encNullableString false none ++ rest) v =
      .ok ({ request_api_key := k, request_api_version := a,
             correlation_id := c, client_id := [],
             unknown_tagged_fields := [] }, rest)) ∧
    (2 ≤ v → RequestHeader.decode
        (encInt16 k ++ encInt16 a ++ encInt32 c ++
          encNullableString false none ++ rest) v =
      (decRawTaggedFieldList rest).bind (fun q =>
        .ok ({ request_api_key := k, request_api_version := a,
               correlation_id := c, client_id := [],
               unknown_tagged_fields := q.1 }, q.2))) ∧
    (v < 1 → RequestHeader.decode
        (encInt16 k ++ encInt16 a ++ encInt32 c ++ rest) v =
      .ok ({ request_api_key := k, request_api_version := a,
             correlation_id := c, client_id := [],
             unknown_tagged_fields := [] }, rest)) := by
  intro v k a c rest hk ha hc
  obtain ⟨hk1, hk2⟩ := hk
  obtain ⟨ha1, ha2⟩ := ha
  obtain ⟨hc1, hc2⟩ := hc
  refine ⟨rfl, ?_, ?_, ?_⟩
  · intro h1 h2
    have hd := requestHeader_decode_mid v k a c
      (encNullableString false none ++ rest) hk1 hk2 ha1 ha2 hc1 hc2 h1 h2
    simp only [List.append_assoc] at hd
    simp only [List.append_assoc]
    rw [hd, decNullableString_enc_none false rest]
    simp only [Except.bind, Option.getD_none]
  · intro h2
    have hd := requestHeader_decode_flex v k a c
      (encNullableString false none ++ rest) hk1 hk2 ha1 ha2 hc1 hc2 h2
    simp only [List.append_assoc] at hd
    simp only [List.append_assoc]
    rw [hd, decNullableString_enc_none false rest]
    simp only [Except.bind, Option.getD_none]
  · intro h1
    exact requestHeader_decode_v0 v k a c rest hk1 hk2 ha1 ha2 hc1 hc2 h1

/-- Witness for C9 at header version 1 with a null client id followed by a
two-byte remainder, and at header version 0 with the same remainder. -/
theorem claim_C9_witness :
    RequestHeader.decode
      (encInt16 18 ++ encInt16 3 ++ encInt32 7 ++
        encNullableString false none ++ [9, 9]) 1 =
      .ok ({ request_api_key := 18, request_api_version := 3,
             correlation_id := 7, client_id := [],
             unknown_tagged_fields := [] }, [9, 9]) ∧
    RequestHeader.decode
      (encInt16 18 ++ encInt16 3 ++ encInt32 7 ++ [9, 9]) 0 =
      .ok ({ request_api_key := 18, request_api_version := 3,
             correlation_id := 7, client_id := [],
             unknown_tagged_fields := [] }, [9, 9]) :=
  ⟨(claim_C9 1 18 3 7 [9, 9] (by constructor <;> norm_num)
      (by constructor <;> norm_num) (by constructor <;> norm_num)).2.1
      (by norm_num) (by norm_num),
   (claim_C9 0 18 3 7 [9, 9] (by constructor <;> norm_num)
      (by constructor <;> norm_num) (by constructor <;> norm_num)).2.2.2
      (by norm_num)⟩

/-- Claim C6: decoding a non-nullable string field from a buffer whose next
string carries the null sentinel fails with `UnexpectedNull` naming the
field: `ApiVersionsRequest::decode` from v3 for `client_software_name` and
`client_software_version`, `HeartbeatRequest::read` for `group_id` and
`member_id` at every version; the nullable `group_instance_id` decodes a
null sentinel to `None` without error. -/
theorem claim_C6 : ∀ (v : Int) (rest : List Nat),
    (3 ≤ v → ApiVersionsRequest.decode
        (encNullableString true none ++ rest) v =
      .error (.unexpectedNull "client_software_name")) ∧
    (3 ≤ v → ApiVersionsRequest.decode
        (encNullableString true (some [97]) ++
          encNullableString true none ++ rest) v =
      .error (.unexpectedNull "client_software_version")) ∧
    (HeartbeatRequest.read
        (encNullableString (decide (v ≥ 4)) none ++ rest) v =
      .error (.unexpectedNull "group_id")) ∧
    (4 ≤ v → HeartbeatRequest.read
        (encNullableString true (some [103]) ++ encInt32 1 ++
          encNullableString true none ++ rest) v =
      .error (.unexpectedNull "member_id")) ∧
    (4 ≤ v → HeartbeatRequest.read
        (encNullableString true (some [103]) ++ encInt32 1 ++
          encNullableString true (some [109]) ++
          encNullableString true none ++
          encRawTaggedFieldList [] ++ rest) v =
      .ok ({ group_id := [103], generation_id := 1, member_id := [109],
             group_instance_id := none,
             unknown_tagged_fields := [] }, rest)) := by
  intro v rest
  refine ⟨?_, ?_, ?_, ?_, ?_⟩
  · intro h3
    simp only [ApiVersionsRequest.decode, ge_iff_le, if_pos h3,
      List.append_assoc]
    rw [decNullableString_enc_none true rest]
    simp only [exceptPure_eq, exceptBind_ok]
  · intro h3
    simp only [ApiVersionsRequest.decode, ge_iff_le, if_pos h3,
      List.append_assoc]
    rw [decNullableString_enc_some true [97] _ (fun _ => by norm_num)
      (fun hff => Bool.noConfusion hff)]
    simp only [exceptPure_eq, exceptBind_ok]
    rw [decNullableString_enc_none true rest]
    simp only [exceptPure_eq, exceptBind_ok]
  · simp only [HeartbeatRequest.read]
    rw [decNullableString_enc_none]
    simp only [exceptPure_eq, exceptBind_ok]
  · intro h4
    have hflag : decide (v ≥ 4) = true := decide_eq_true h4
    simp only [HeartbeatRequest.read, ge_iff_le, hflag, List.append_assoc]
    rw [decNullableString_enc_some true [103] _ (fun _ => by norm_num)
      (fun hff => Bool.noConfusion hff)]
    simp only [exceptPure_eq, exceptBind_ok]
    rw [decInt32_enc 1 _ (by norm_num) (by norm_num)]
    simp only [exceptPure_eq, exceptBind_ok]
    rw [decNullableString_enc_none true _]
    simp only [exceptPure_eq, exceptBind_ok]
  · intro h4
    have h3 : (3 : Int) ≤ v := by omega
    have hflag : decide (v ≥ 4) = true := decide_eq_true h4
    simp only [HeartbeatRequest.read, ge_iff_le, hflag, if_pos h3,
      if_pos h4, List.append_assoc, List.nil_append, List.append_nil]
    rw [decNullableString_enc_some true [103] _ (fun _ => by norm_num)
      (fun hff => Bool.noConfusion hff)]
    simp only [exceptPure_eq, exceptBind_ok]
    rw [decInt32_enc 1 _ (by norm_num) (by norm_num)]
    simp only [exceptPure_eq, exceptBind_ok]
    rw [decNullableString_enc_some true [109] _ (fun _ => by norm_num)
      (fun hff => Bool.noConfusion hff)]
    simp only [exceptPure_eq, exceptBind_ok]
    rw [decNullableString_enc_none true _]
    simp only [exceptPure_eq, exceptBind_ok]
    rw [decRawTaggedFieldList_enc [] _ rfl (fun f hf => nomatch hf)
      (by norm_num)]
    simp only [exceptPure_eq, exceptBind_ok]

/-- Witness for C6 at body version 3 (ApiVersionsRequest) and 4
(HeartbeatRequest) with a one-byte remainder. -/
theorem claim_C6_witness :
    (ApiVersionsRequest.decode (encNullableString true none ++ [7]) 3 =
      .error (.unexpectedNull "client_software_name")) ∧
    (ApiVersionsRequest.decode
        (encNullableString true (some [97]) ++
          encNullableString true none ++ [7]) 3 =
      .error (.unexpectedNull "client_software_version")) ∧
    (HeartbeatRequest.read
        (encNullableString (decide ((4 : Int) ≥ 4)) none ++ [7]) 4 =
      .error (.unexpectedNull "group_id")) ∧
    (HeartbeatRequest.read
        (encNullableString true (some [103]) ++ encInt32 1 ++
          encNullableString true none ++ [7]) 4 =
      .error (.unexpectedNull "member_id")) ∧
    (HeartbeatRequest.read
        (encNullableString true (some [103]) ++ encInt32 1 ++
          encNullableString true (some [109]) ++
          encNullableString true none ++
          encRawTaggedFieldList [] ++ [7]) 4 =
      .ok ({ group_id := [103], generation_id := 1, member_id := [109],
             group_instance_id := none,
             unknown_tagged_fields := [] }, [7])) :=
  ⟨(claim_C6 3 [7]).1 (by norm_num),
   (claim_C6 3 [7]).2.1 (by norm_num),
   (claim_C6 4 [7]).2.2.1,
   (claim_C6 4 [7]).2.2.2.1 (by norm_num),
   (claim_C6 4 [7]).2.2.2.2 (by norm_num)⟩

/-- Counterexample to C3 as stated: a `FetchResponse` whose
`unknown_tagged_fields` hold tags 1 then 0 — a value the spec's
assignability wording admits, since neither tag clashes with a known tagged
field — encodes successfully at v12, but decoding the produced bytes fails
with `Malformed` because the emitted trailer is not in ascending tag order;
so `decode(encode(v, V), V) == v` does not hold for every such value. -/
theorem claim_C3_counterexample :
    tagsAscending [{ tag := 1, data := [] }, { tag := 0, data := [] }] =
      false ∧
    (FetchResponse.encode
        { throttle_time_ms := 0, error_code := 0, session_id := 0,
          responses := [],
          unknown_tagged_fields :=
            [{ tag := 1, data := [] }, { tag := 0, data := [] }] } 12).bind
      (fun bs => FetchResponse.decode bs 12) = .error .malformed :=
  ⟨rfl, rfl⟩

/-- Claim C3, amended: for every message type of the catalog, every
supported version and every assignable value — where assignability
additionally requires the stored `unknown_tagged_fields` to be strictly
ascending by tag (as `taggedWF` inside each `assignable` predicate states)
— decoding the bytes produced by encoding the value yields the value back
with the buffer fully consumed. -/
theorem claim_C3_amended :
    (∀ (x : RequestHeader) (v : Int), 0 ≤ v → v ≤ 2 →
      x.assignable v →
      RequestHeader.decode (x.encode v) v = .ok (x, [])) ∧
    (∀ (x : ApiVersionsRequest) (v : Int), 0 ≤ v → v ≤ 3 →
      x.assignable v →
      ApiVersionsRequest.decode (x.encode v) v = .ok (x, [])) ∧
    (∀ (x : HeartbeatRequest) (v : Int), 0 ≤ v → v ≤ 4 →
      x.assignable v →
      HeartbeatRequest.read (HeartbeatRequest.write x v) v = .ok (x, [])) ∧
    (∀ (x : FetchResponse) (v : Int), 0 ≤ v → v ≤ 15 →
      x.assignable v →
      (x.encode v).bind (fun bs => FetchResponse.decode bs v) =
        .ok (x, [])) ∧
    (∀ (x : FetchableTopicResponse) (v : Int), 0 ≤ v → v ≤ 15 →
      x.assignable v →
      (x.encode v).bind (fun bs => FetchableTopicResponse.decode bs v) =
        .ok (x, [])) ∧
    (∀ (x : PartitionData) (v : Int), 0 ≤ v → v ≤ 15 →
      x.assignable v →
      (x.encode v).bind (fun bs => PartitionData.decode bs v) =
        .ok (x, [])) ∧
    (∀ (x : EpochEndOffset) (v : Int), 12 ≤ v → v ≤ 15 →
      x.assignable →
      (x.encode v).bind (fun bs => EpochEndOffset.decode bs v) =
        .ok (x, [])) ∧
    (∀ (x : LeaderIdAndEpoch) (v : Int), 12 ≤ v → v ≤ 15 →
      x.assignable →
      (x.encode v).bind (fun bs => LeaderIdAndEpoch.decode bs v) =
        .ok (x, [])) ∧
    (∀ (x : SnapshotId) (v : Int), 12 ≤ v → v ≤ 15 →
      x.assignable →
      (x.encode v).bind (fun bs => SnapshotId.decode bs v) =
        .ok (x, [])) ∧
    (∀ (x : AbortedTransaction) (v : Int), 4 ≤ v → v ≤ 15 →
      x.assignable v →
      (x.encode v).bind (fun bs => AbortedTransaction.decode bs v) =
        .ok (x, [])) := by
  refine ⟨?_, ?_, ?_, ?_, ?_, ?_, ?_, ?_, ?_, ?_⟩
  · intro x v _ _ ha
    have h := requestHeader_dec_enc x v ha []
    rwa [List.append_nil] at h
  · intro x v _ _ ha
    have h := apiVersionsRequest_dec_enc x v ha []
    rwa [List.append_nil] at h
  · intro x v _ _ ha
    have h := heartbeatRequest_dec_enc x v ha []
    rwa [List.append_nil] at h
  · intro x v _ _ ha
    rw [fetchResponse_encode_eq x v]
    simp only [Except.bind]
    have h := fetchResponse_dec_wire x v ha []
    rwa [List.append_nil] at h
  · intro x v _ _ ha
    rw [fetchableTopicResponse_encode_eq x v]
    simp only [Except.bind]
    have h := fetchableTopicResponse_dec_wire x v ha []
    rwa [List.append_nil] at h
  · intro x v _ _ ha
    rw [partitionData_encode_eq x v]
    simp only [Except.bind]
    have h := partitionData_dec_wire x v ha []
    rwa [List.append_nil] at h
  · intro x v h12 _ ha
    rw [epochEndOffset_encode_eq x v h12]
    simp only [Except.bind]
    have h := epochEndOffset_dec_wire x v h12 ha []
    rwa [List.append_nil] at h
  · intro x v h12 _ ha
    rw [leaderIdAndEpoch_encode_eq x v h12]
    simp only [Except.bind]
    have h := leaderIdAndEpoch_dec_wire x v h12 ha []
    rwa [List.append_nil] at h
  · intro x v h12 _ ha
    rw [snapshotId_encode_eq x v h12]
    simp only [Except.bind]
    have h := snapshotId_dec_wire x v h12 ha []
    rwa [List.append_nil] at h
  · intro x v h4 _ ha
    rw [abortedTransaction_encode_eq x v h4]
    simp only [Except.bind]
    have h := abortedTransaction_dec_wire x v h4 ha []
    rwa [List.append_nil] at h

/-- Witness for the amended C3 at `HeartbeatRequest.default` v0 and
`FetchResponse.default` v12. -/
theorem claim_C3_witness :
    HeartbeatRequest.read
        (HeartbeatRequest.write HeartbeatRequest.default 0) 0 =
      .ok (HeartbeatRequest.default, []) ∧
    (FetchResponse.encode FetchResponse.default 12).bind
        (fun bs => FetchResponse.decode bs 12) =
      .ok (FetchResponse.default, []) :=
  ⟨claim_C3_amended.2.2.1 HeartbeatRequest.default 0 (by norm_num)
      (by norm_num)
      (by
        norm_num [HeartbeatRequest.assignable, HeartbeatRequest.default,
          i32Bounds, taggedWF, tagsAscending, tagsAscendingFrom]
        intro s h
        exact Option.noConfusion h),
   claim_C3_amended.2.2.2.1 FetchResponse.default 12 (by norm_num)
      (by norm_num)
      (by norm_num [FetchResponse.assignable, FetchResponse.default,
        i32Bounds, i16Bounds, taggedWF, tagsAscending,
        tagsAscendingFrom])⟩
